import Mathlib

/-!
# Verification of the zed-seo-tool keyword pipeline

Shallow embedding of the batch orchestrators (`src/pages/keyword_cleaning.py`,
`src/pages/keyword_mapping.py`) and the LLM gateway utilities
(`src/utils/llm.py`), with theorems checking the natural-language
specification's claims against the code.

Conventions:
* Python dict rows (`df.iloc[i].to_dict()`, model-result dicts) are embedded as
  association lists `Row := List (String × Value)`; dict assignment
  `d[k] = v` is `Row.set` (replace first binding, else append).
* Machine floats in the cost tracker are idealised as exact rationals `ℚ`;
  Python's `round` (banker's rounding) is `pyRound`.
* The LLM transport is an oracle parameter (`Nat → …`), since model output is
  external input.
-/

namespace ZedSeo

/-- A Python scalar value appearing in a keyword row or model-result dict. -/
inductive Value where
  | str (s : String)
  | num (n : Int)
  deriving DecidableEq, Repr

/-- A Python dict, e.g. `df.iloc[i].to_dict()` or one parsed model result:
an association list from column name to value (keys unique in practice). -/
abbrev Row := List (String × Value)

/-- Python `d.get(k)` / `d[k]`: value of the first binding of `k`, if any. -/
def Row.get (r : Row) (k : String) : Option Value :=
  match r with
  | [] => none
  | (k', v) :: rest => if k' = k then some v else Row.get rest k

/-- Python `d.get(k, default)`. -/
def Row.getD (r : Row) (k : String) (d : Value) : Value :=
  (r.get k).getD d

/-- Python dict assignment `d[k] = v`: replace the first binding of `k`,
or append a new binding at the end (dicts preserve insertion order). -/
def Row.set (r : Row) (k : String) (v : Value) : Row :=
  match r with
  | [] => [(k, v)]
  | (k', v') :: rest => if k' = k then (k', v) :: rest else (k', v') :: Row.set rest k v

/-- Helper for Python `sub in s`: does `sub` occur as a contiguous slice? -/
def isSubChars (sub : List Char) : List Char → Bool
  | [] => sub.isEmpty
  | c :: rest => sub.isPrefixOf (c :: rest) || isSubChars sub rest

/-- Python `sub in s` (substring containment), on the underlying characters. -/
def containsSub (s sub : String) : Bool :=
  isSubChars sub.toList s.toList

/-- Python `str.lower()` (ASCII case folding suffices for this repo's data). -/
def pyLower (s : String) : String :=
  String.mk (s.toList.map Char.toLower)

/-! ## `pre_filter_negatives` (src/utils/llm.py, lines 237–268) -/

/-- The first term of `lower_terms` that is a substring of `kw_lower`
(Python `next((t for t in lower_terms if t in kw_lower), None)`). -/
def firstMatch (lowerTerms : List String) (kwLower : String) : Option String :=
  lowerTerms.find? (fun t => containsSub kwLower t)

/-- The auto-removed annotation: `{**kw, "classification": "REMOVE",
"confidence": 100, "reason": f"Matched negative keyword: {matched_term}"}`.
Building a fresh dict from `**kw` plus three new keys equals three
`Row.set` updates when the keys are fresh; we use `Row.set` as for the
other merges (dict-update semantics). -/
def annotateNeg (kw : Row) (matchedTerm : String) : Row :=
  ((kw.set "classification" (.str "REMOVE")).set "confidence" (.num 100)).set
    "reason" (.str ("Matched negative keyword: " ++ matchedTerm))

/-- `pre_filter_negatives` from src/utils/llm.py: split keywords into
`(pass_through, auto_removed)` by case-insensitive substring match against
the negative terms. -/
def pre_filter_negatives (keywords : List Row) (negative_terms : List String) :
    List Row × List Row :=
  if negative_terms = [] then (keywords, [])
  else
    let lower_terms := negative_terms.map pyLower
    keywords.foldl
      (fun (acc : List Row × List Row) kw =>
        let kw_lower := pyLower (match kw.get "keyword" with
          | some (.str s) => s
          | _ => "")
        match firstMatch lower_terms kw_lower with
        | some t => (acc.1, acc.2 ++ [annotateNeg kw t])
        | none => (acc.1 ++ [kw], acc.2))
      ([], [])

/-- The keyword text of a row (rows entering the pipeline always carry a
string under `"keyword"`). -/
def kwText (kw : Row) : String :=
  match kw.get "keyword" with
  | some (.str s) => s
  | _ => ""

/-- The three keys written by the negative-keyword annotation. -/
def negAnnKeys : List String := ["classification", "confidence", "reason"]

/-! ## Cost tracker (src/utils/llm.py, lines 47–109)

Dollar amounts are idealised as exact rationals; Python's float `round`
(round-half-to-even) becomes `pyRound` on `ℚ`. -/

/-- `MODEL_PRICING` ($ per 1M tokens): `(input_rate, output_rate)`. -/
def MODEL_PRICING (model : String) : Option (ℚ × ℚ) :=
  if model = "anthropic/claude-haiku-4.5" then some (1, 5)
  else if model = "anthropic/claude-3.5-haiku" then some (1, 5)
  else if model = "anthropic/claude-sonnet-4-5-20250929" then some (3, 15)
  else if model = "google/gemini-2.5-flash" then some (3/10, 5/2)
  else if model = "moonshotai/kimi-k2" then some (1/2, 12/5)
  else none

/-- `MODEL_PRICING.get(model, default)` with the default rate pair. -/
def pricingOrDefault (model : String) : ℚ × ℚ :=
  (MODEL_PRICING model).getD (1, 5)

/-- Round-half-to-even to an integer (Python's `round` on exact values). -/
def roundHalfEven (q : ℚ) : ℤ :=
  let f := ⌊q⌋
  if q - f < 1/2 then f
  else if (1 : ℚ)/2 < q - f then f + 1
  else if Even f then f else f + 1

/-- Python `round(q, n)` idealised on `ℚ`. -/
def pyRound (q : ℚ) (n : ℕ) : ℚ :=
  (roundHalfEven (q * 10 ^ n) : ℚ) / 10 ^ n

/-- One element of `CostTracker.calls` (the wall-clock timestamp field is
dropped: it never enters any computation). -/
structure CallEntry where
  model : String
  input_tokens : ℕ
  output_tokens : ℕ
  cost_usd : ℚ
  task : String
  deriving DecidableEq, Repr

/-- The unrounded cost of one call:
`input_tokens * rate_in / 1e6 + output_tokens * rate_out / 1e6`. -/
def callCost (model : String) (input_tokens output_tokens : ℕ) : ℚ :=
  let pricing := pricingOrDefault model
  input_tokens * pricing.1 / 1000000 + output_tokens * pricing.2 / 1000000

/-- The state of `CostTracker`. -/
structure CostTracker where
  calls : List CallEntry
  total_input_tokens : ℕ
  total_output_tokens : ℕ
  total_cost_usd : ℚ
  deriving DecidableEq, Repr

/-- `CostTracker.__init__`. -/
def CostTracker.new : CostTracker := ⟨[], 0, 0, 0⟩

/-- `CostTracker.record`: append an entry (with `cost_usd = round(cost, 6)`)
and bump the running totals by the unrounded values. -/
def CostTracker.record (t : CostTracker) (model : String)
    (input_tokens output_tokens : ℕ) (task : String) : CostTracker :=
  let cost := callCost model input_tokens output_tokens
  { calls := t.calls ++
      [⟨model, input_tokens, output_tokens, pyRound cost 6, task⟩],
    total_input_tokens := t.total_input_tokens + input_tokens,
    total_output_tokens := t.total_output_tokens + output_tokens,
    total_cost_usd := t.total_cost_usd + cost }

/-- The dict returned by `CostTracker.summary`. -/
structure Summary where
  total_calls : ℕ
  total_input_tokens : ℕ
  total_output_tokens : ℕ
  total_cost_usd : ℚ
  deriving DecidableEq, Repr

/-- `CostTracker.summary`: counts, token totals, and the running cost total
rounded to 4 decimal places. -/
def CostTracker.summary (t : CostTracker) : Summary :=
  ⟨t.calls.length, t.total_input_tokens, t.total_output_tokens,
   pyRound t.total_cost_usd 4⟩

/-- Arguments of one `record` call: `(model, input_tokens, output_tokens, task)`. -/
abbrev RecordArgs := String × ℕ × ℕ × String

/-- A sequence of `record` calls applied in order. -/
def recordAll (t : CostTracker) (cs : List RecordArgs) : CostTracker :=
  cs.foldl (fun t c => t.record c.1 c.2.1 c.2.2.1 c.2.2.2) t

/-- The entry `record` appends for given arguments. -/
def entryOf (c : RecordArgs) : CallEntry :=
  ⟨c.1, c.2.1, c.2.2.1, pyRound (callCost c.1 c.2.1 c.2.2.1) 6, c.2.2.2⟩

/-! ## Retry-wrapped LLM call (src/utils/llm.py, lines 112–161)

`_chat` is decorated with tenacity
`retry(stop=stop_after_attempt(3), wait=wait_exponential(multiplier=2, min=2, max=30))`.
Modelled from tenacity's documented semantics: attempts are numbered from 1;
after a failed attempt, if the stop condition (`attempt_number ≥ 3`) holds the
last failure propagates (no further sleep), otherwise the loop sleeps
`clamp(multiplier * 2^(attempt_number - 1), min, max)` seconds and retries.
The transport is an oracle `call : ℕ → Except ε α` from attempt number to
outcome. -/

/-- tenacity `wait_exponential(multiplier, min, max)` evaluated at a 1-based
attempt number. -/
def waitExponential (multiplier minW maxW : ℕ) (attempt : ℕ) : ℕ :=
  max minW (min (multiplier * 2 ^ (attempt - 1)) maxW)

/-- The backoff configured on `_chat`:
`wait_exponential(multiplier=2, min=2, max=30)`. -/
def chatWait (attempt : ℕ) : ℕ := waitExponential 2 2 30 attempt

/-- Observable outcome of one decorated call: result, number of attempts
actually made, and the sleeps (in seconds) between attempts. -/
structure RetryTrace (ε α : Type) where
  result : Except ε α
  attemptsMade : ℕ
  sleeps : List ℕ
  deriving Repr

/-- The tenacity loop: `retriesLeft` is the number of further attempts the
stop condition still allows after the current one (`stop_after_attempt(3)`
entered at attempt 1 gives `retriesLeft = 2`). -/
def retryGo (call : ℕ → Except ε α) : (attempt retriesLeft : ℕ) → RetryTrace ε α
  | attempt, 0 =>
    match call attempt with
    | .ok v => ⟨.ok v, attempt, []⟩
    | .error e => ⟨.error e, attempt, []⟩
  | attempt, n+1 =>
    match call attempt with
    | .ok v => ⟨.ok v, attempt, []⟩
    | .error _ =>
      let t := retryGo call (attempt + 1) n
      ⟨t.result, t.attemptsMade, chatWait attempt :: t.sleeps⟩

/-- `_chat` as decorated: at most 3 attempts in total. -/
def chatRetry (call : ℕ → Except ε α) : RetryTrace ε α := retryGo call 1 2

/-- The caller pattern of every task in src/utils/llm.py
(`raw = _chat(...)` then `data = _parse_json(raw)`): parsing runs after the
retry-wrapped call has returned. -/
def taskRun (call : ℕ → Except ε String) (parse : String → Except ε α) :
    RetryTrace ε α :=
  let t := chatRetry call
  match t.result with
  | .ok raw => ⟨parse raw, t.attemptsMade, t.sleeps⟩
  | .error e => ⟨.error e, t.attemptsMade, t.sleeps⟩

/-! ## Missing-credential behaviour (src/utils/llm.py, lines 23–40 and 115–141)

`_get_client()` raises `ValueError` when `OPENROUTER_API_KEY` is unset, but it
is invoked *inside* the retry-decorated `_chat`, so the error is retried like
any other exception. -/

/-- Failure classes of one `_chat` attempt. -/
inductive ChatError where
  | config (msg : String)
  | transport (msg : String)
  deriving DecidableEq, Repr

/-- The actionable `_get_client` message. -/
def missingKeyMsg : String :=
  "OPENROUTER_API_KEY not set. Add it to .env.local or set the environment variable."

/-- One attempt of the body of `_chat`: `_get_client()` first (raises when
the key is missing, before any provider call), then the provider request. -/
def chatAttempt (apiKey : Option String)
    (transport : ℕ → Except String String) (attempt : ℕ) :
    Except ChatError String :=
  match apiKey with
  | none => .error (.config missingKeyMsg)
  | some _ =>
    match transport attempt with
    | .ok v => .ok v
    | .error e => .error (.transport e)

/-! ## Batch pipeline orchestrators
(src/pages/keyword_cleaning.py lines 199–273, src/pages/keyword_mapping.py
lines 159–230)

Both pages guard the whole block with `if df is not None and len(df) > 0:`
and then loop `for batch_idx in range(total_batches)` with
`total_batches = max(1, (len(df) + BATCH_SIZE - 1) // BATCH_SIZE)`.
The model-call outcome per batch is an oracle; the state records, besides
`all_results` and `anchor_examples`, three observation traces: the payloads
passed to `save_results` (checkpoints), the block of rows each batch
appended (outputs), and the `examples=` argument of each classify call. -/

def BATCH_SIZE : ℕ := 100

/-- `total_batches = max(1, (len(df) + BATCH_SIZE - 1) // BATCH_SIZE)`. -/
def total_batches (n : ℕ) : ℕ := max 1 ((n + BATCH_SIZE - 1) / BATCH_SIZE)

/-- The slice `df.iloc[start:end]` of batch `i`: `start = i * BATCH_SIZE`,
`end = min(start + BATCH_SIZE, len(df))`. -/
def batchAt (rows : List Row) (i : ℕ) : List Row :=
  let start := i * BATCH_SIZE
  let endIdx := min (start + BATCH_SIZE) rows.length
  (rows.drop start).take (endIdx - start)

/-- The sequence of batches the loop slices out (empty when the page guard
`len(df) > 0` fails). -/
def batchSlices (rows : List Row) : List (List Row) :=
  if rows.length = 0 then []
  else (List.range (total_batches rows.length)).map (batchAt rows)

/-- Success-path merge of one classify result onto the original row
(`row_data["classification"] = result.get("classification", "UNSURE")` etc.). -/
def classifyAnnotate (rowData res : Row) : Row :=
  ((rowData.set "classification" (res.getD "classification" (.str "UNSURE"))).set
      "confidence" (res.getD "confidence" (.num 50))).set
    "reason" (res.getD "reason" (.str ""))

/-- Failure-path degraded row for Clean Keywords
(`classification="UNSURE"`, `confidence=0`, `reason=f"Batch failed: {e}"`). -/
def classifyDegrade (e : String) (rowData : Row) : Row :=
  ((rowData.set "classification" (.str "UNSURE")).set
      "confidence" (.num 0)).set
    "reason" (.str ("Batch failed: " ++ e))

/-- `"New Page" if result.get("url") == "NEW_PAGE" else "Blog Post" if
result.get("url") == "BLOG_POST" else "Existing URL"`. -/
def recommendationOf (res : Row) : String :=
  if res.get "url" = some (.str "NEW_PAGE") then "New Page"
  else if res.get "url" = some (.str "BLOG_POST") then "Blog Post"
  else "Existing URL"

/-- Success-path merge of one mapping result onto the original row. -/
def mapAnnotate (rowData res : Row) : Row :=
  ((((rowData.set "mapped_url" (res.getD "url" (.str ""))).set
        "confidence" (res.getD "confidence" (.num 0))).set
      "search_intent" (res.getD "intent" (.str ""))).set
    "recommendation" (.str (recommendationOf res))).set
    "notes" (res.getD "notes" (.str ""))

/-- Failure-path degraded row for Map Keywords. -/
def mapDegrade (e : String) (rowData : Row) : Row :=
  ((((rowData.set "mapped_url" (.str "")).set
        "confidence" (.num 0)).set
      "search_intent" (.str "")).set
    "recommendation" (.str "Error")).set
    "notes" (.str ("Batch failed: " ++ e))

/-- The success merge loop
`for i, result in enumerate(batch_results): row_idx = start + i;
if row_idx < len(df): <annotate df.iloc[row_idx] with result>`:
the i-th result is paired with row `start + i`; the `enumerate` bound and the
`row_idx < len(df)` guard together truncate at
`min(len(batch_results), len(df) - start)`, which is exactly a zip with the
row suffix from `start`. -/
def mergeBatch (annotate : Row → Row → Row) (rows : List Row) (start : ℕ)
    (results : List Row) : List Row :=
  (results.zip (rows.drop start)).map (fun p => annotate p.2 p.1)

/-- One pass of `if examples_of_cat and len(anchor_examples) < 3:
anchor_examples.append(examples_of_cat[0])`. -/
def anchorStep (anchors : List Row) (examplesOfCat : List Row) : List Row :=
  match examplesOfCat with
  | [] => anchors
  | e :: _ => if anchors.length < 3 then anchors ++ [e] else anchors

/-- The anchor-example update after a successful batch
(`for cat in ["KEEP", "REMOVE", "UNSURE"]: ...`). -/
def updateAnchors (anchors : List Row) (results : List Row) : List Row :=
  (["KEEP", "REMOVE", "UNSURE"]).foldl
    (fun acc cat =>
      anchorStep acc
        (results.filter (fun r => r.get "classification" == some (.str cat))))
    anchors

/-- In-flight state of the Clean Keywords loop, plus observation traces. -/
structure CleanState where
  all_results : List Row
  anchor_examples : List Row
  /-- `"results"` payload of each `save_results` call, in order. -/
  checkpoints : List (List Row)
  /-- the block of rows each completed batch appended to `all_results`. -/
  outputs : List (List Row)
  /-- the `examples=` argument passed to each `classify_keywords` call. -/
  calls : List (Option (List Row))
  deriving DecidableEq, Repr

/-- State before the first batch. -/
def CleanState.start : CleanState := ⟨[], [], [], [], []⟩

/-- `examples=anchor_examples if anchor_examples else None`. -/
def examplesArg (st : CleanState) : Option (List Row) :=
  if st.anchor_examples = [] then none else some st.anchor_examples

/-- Outcome of `classify_keywords(profile, keywords, examples)` for a given
batch index and examples argument: the parsed per-keyword results, or the
text of the exception raised (transport failure after retries, or parse
failure). -/
abbrev CleanOracle := ℕ → Option (List Row) → Except String (List Row)

/-- One iteration of the Clean Keywords batch loop. -/
def cleanStep (rows : List Row) (oracle : CleanOracle) (st : CleanState)
    (batch_idx : ℕ) : CleanState :=
  let start := batch_idx * BATCH_SIZE
  let ex := examplesArg st
  match oracle batch_idx ex with
  | .ok res =>
    let merged := mergeBatch classifyAnnotate rows start res
    let all' := st.all_results ++ merged
    ⟨all', updateAnchors st.anchor_examples res,
      st.checkpoints ++ [all'], st.outputs ++ [merged], st.calls ++ [ex]⟩
  | .error e =>
    let degraded := (batchAt rows batch_idx).map (classifyDegrade e)
    let all' := st.all_results ++ degraded
    ⟨all', st.anchor_examples,
      st.checkpoints ++ [all'], st.outputs ++ [degraded], st.calls ++ [ex]⟩

/-- The first `k` iterations of the Clean Keywords loop. -/
def cleanRunTo (rows : List Row) (oracle : CleanOracle) (k : ℕ) : CleanState :=
  (List.range k).foldl (cleanStep rows oracle) CleanState.start

/-- The whole Clean Keywords run (with the `len(df) > 0` page guard). -/
def cleanRun (rows : List Row) (oracle : CleanOracle) : CleanState :=
  if rows.length = 0 then CleanState.start
  else cleanRunTo rows oracle (total_batches rows.length)

/-- In-flight state of the Map Keywords loop, plus observation traces. -/
structure MapState where
  all_results : List Row
  checkpoints : List (List Row)
  outputs : List (List Row)
  deriving DecidableEq, Repr

/-- State before the first batch. -/
def MapState.start : MapState := ⟨[], [], []⟩

/-- Outcome of `map_keywords(profile, keywords, url_inventory)` per batch. -/
abbrev MapOracle := ℕ → Except String (List Row)

/-- One iteration of the Map Keywords batch loop. -/
def mapStep (rows : List Row) (oracle : MapOracle) (st : MapState)
    (batch_idx : ℕ) : MapState :=
  let start := batch_idx * BATCH_SIZE
  match oracle batch_idx with
  | .ok res =>
    let merged := mergeBatch mapAnnotate rows start res
    let all' := st.all_results ++ merged
    ⟨all', st.checkpoints ++ [all'], st.outputs ++ [merged]⟩
  | .error e =>
    let degraded := (batchAt rows batch_idx).map (mapDegrade e)
    let all' := st.all_results ++ degraded
    ⟨all', st.checkpoints ++ [all'], st.outputs ++ [degraded]⟩

/-- The first `k` iterations of the Map Keywords loop. -/
def mapRunTo (rows : List Row) (oracle : MapOracle) (k : ℕ) : MapState :=
  (List.range k).foldl (mapStep rows oracle) MapState.start

/-- The whole Map Keywords run (with the `len(df) > 0` page guard). -/
def mapRun (rows : List Row) (oracle : MapOracle) : MapState :=
  if rows.length = 0 then MapState.start
  else mapRunTo rows oracle (total_batches rows.length)

/-- Concrete 205-row input used by several witnesses. -/
def wrows : List Row := List.replicate 205 [("keyword", Value.str "k")]

/-- The output block appended by batch `i` of the Clean Keywords loop
(reading off the state just before that batch). -/
def cleanOutputAt (rows : List Row) (oracle : CleanOracle) (i : ℕ) : List Row :=
  match oracle i (examplesArg (cleanRunTo rows oracle i)) with
  | .ok res => mergeBatch classifyAnnotate rows (i * BATCH_SIZE) res
  | .error e => (batchAt rows i).map (classifyDegrade e)

/-- The output block appended by batch `i` of the Map Keywords loop. -/
def mapOutputAt (rows : List Row) (oracle : MapOracle) (i : ℕ) : List Row :=
  match oracle i with
  | .ok res => mergeBatch mapAnnotate rows (i * BATCH_SIZE) res
  | .error e => (batchAt rows i).map (mapDegrade e)

/-- Concrete 101-row input (two batches) used by run witnesses. -/
def wrows2 : List Row := List.replicate 101 [("keyword", Value.str "k")]

/-- A concrete classify result row. -/
def wresK : Row :=
  [("keyword", Value.str "k"), ("classification", Value.str "KEEP"),
   ("confidence", Value.num 90), ("reason", Value.str "ok")]

/-- A concrete mapping result row. -/
def wresM : Row :=
  [("keyword", Value.str "k"), ("url", Value.str "NEW_PAGE"),
   ("confidence", Value.num 80), ("intent", Value.str "t"),
   ("notes", Value.str "n")]

/-- Classify oracle: batch 0 succeeds with one result, later batches raise. -/
def wOracleC : CleanOracle :=
  fun i _ => if i = 0 then .ok [wresK] else .error "boom"

/-- Mapping oracle: batch 0 succeeds with one result, later batches raise. -/
def wOracleM : MapOracle :=
  fun i => if i = 0 then .ok [wresM] else .error "boom"

/-- The five keys written by the mapping annotation. -/
def mapAnnKeys : List String :=
  ["mapped_url", "confidence", "search_intent", "recommendation", "notes"]

/-- Classify oracle that produces a KEEP example on every batch. -/
def wOracleKK : CleanOracle := fun _ _ => .ok [wresK]

/-! ## `_parse_json` (src/utils/llm.py, lines 144–161)

`_parse_json` strips the response, extracts a fenced block via
`re.search(r"```(?:json)?\s*\n(.*?)\n```", text, re.DOTALL)` when "```"
occurs, falls back to dropping everything before the first `{`/`[` when the
text does not start with one, and then calls `json.loads`.  `json.loads` is
modelled as a standard JSON grammar parser (strict mode, rejecting trailing
non-whitespace); the regex is modelled operationally: leftmost match, greedy
`\s*`, lazy group. -/

/-- Python `str.strip()` default whitespace / regex `\s` (ASCII range). -/
def pyIsSpace (c : Char) : Bool :=
  c = ' ' || c = '\t' || c = '\n' || c = '\r' || c = '\x0b' || c = '\x0c'

/-- `text.strip()` on the character list. -/
def pyStripChars (cs : List Char) : List Char :=
  ((cs.dropWhile pyIsSpace).reverse.dropWhile pyIsSpace).reverse

/-- `text.strip()`. -/
def pyStrip (s : String) : String := String.mk (pyStripChars s.toList)

/-- JSON value (`json.loads` result).  Numbers keep their source lexeme:
nothing in this development inspects numeric magnitude, which avoids
modelling binary floats. -/
inductive Json where
  | null
  | bool (b : Bool)
  | num (lexeme : String)
  | str (s : String)
  | arr (elems : List Json)
  | obj (fields : List (String × Json))

/-- Hexadecimal digit value. -/
def hexVal (c : Char) : Option ℕ :=
  if '0' ≤ c ∧ c ≤ '9' then some (c.toNat - '0'.toNat)
  else if 'a' ≤ c ∧ c ≤ 'f' then some (c.toNat - 'a'.toNat + 10)
  else if 'A' ≤ c ∧ c ≤ 'F' then some (c.toNat - 'A'.toNat + 10)
  else none

/-- Four hex digits of a `\\uXXXX` escape. -/
def parseHex4 : List Char → Option (ℕ × List Char)
  | a :: b :: c :: d :: rest =>
    match hexVal a, hexVal b, hexVal c, hexVal d with
    | some x, some y, some z, some w =>
      some ((((x * 16 + y) * 16 + z) * 16 + w), rest)
    | _, _, _, _ => none
  | _ => none

/-- JSON string-literal body after the opening quote (strict mode: raw
control characters rejected; surrogate pairs are not modelled — a `\\uXXXX`
outside Lean's scalar range degrades to `Char.ofNat`'s default). -/
def parseStringBody : ℕ → List Char → Option (String × List Char)
  | 0, _ => none
  | _ + 1, [] => none
  | _ + 1, '"' :: rest => some ("", rest)
  | fuel + 1, '\\' :: cs2 =>
    (match cs2 with
     | [] => none
     | e :: rest =>
       let dec : Option (String × List Char) :=
         if e = '"' then some ("\"", rest)
         else if e = '\\' then some ("\\", rest)
         else if e = '/' then some ("/", rest)
         else if e = 'b' then some ("\x08", rest)
         else if e = 'f' then some ("\x0c", rest)
         else if e = 'n' then some ("\n", rest)
         else if e = 'r' then some ("\r", rest)
         else if e = 't' then some ("\t", rest)
         else if e = 'u' then
           (parseHex4 rest).map (fun p => (String.mk [Char.ofNat p.1], p.2))
         else none
       match dec with
       | none => none
       | some (s1, rest2) =>
         match parseStringBody fuel rest2 with
         | none => none
         | some (s, rest3) => some (s1 ++ s, rest3))
  | fuel + 1, c :: rest =>
    if c.toNat < 0x20 then none
    else
      match parseStringBody fuel rest with
      | none => none
      | some (s, rest2) => some (String.mk [c] ++ s, rest2)

/-- ASCII digit test. -/
def isDigitCh (c : Char) : Bool := '0' ≤ c && c ≤ '9'

/-- The JSON number token `-?(0|[1-9][0-9]*)(\.[0-9]+)?([eE][-+]?[0-9]+)?`
(Python json's NUMBER_RE), returned as its lexeme. -/
def parseNumberLex (cs : List Char) : Option (String × List Char) :=
  let signSplit : List Char × List Char :=
    match cs with
    | '-' :: rest => (['-'], rest)
    | _ => ([], cs)
  let intPart : Option (List Char × List Char) :=
    match signSplit.2 with
    | '0' :: rest => some (['0'], rest)
    | c :: rest =>
      if isDigitCh c then
        some (c :: rest.takeWhile isDigitCh, rest.dropWhile isDigitCh)
      else none
    | [] => none
  match intPart with
  | none => none
  | some (ip, cs2) =>
    let fracSplit : List Char × List Char :=
      match cs2 with
      | '.' :: rest =>
        if rest.takeWhile isDigitCh = [] then ([], cs2)
        else ('.' :: rest.takeWhile isDigitCh, rest.dropWhile isDigitCh)
      | _ => ([], cs2)
    let expSplit : List Char × List Char :=
      match fracSplit.2 with
      | e :: rest =>
        if e = 'e' ∨ e = 'E' then
          let sgnSplit : List Char × List Char :=
            match rest with
            | '+' :: r => (['+'], r)
            | '-' :: r => (['-'], r)
            | _ => ([], rest)
          if sgnSplit.2.takeWhile isDigitCh = [] then ([], fracSplit.2)
          else (e :: (sgnSplit.1 ++ sgnSplit.2.takeWhile isDigitCh),
            sgnSplit.2.dropWhile isDigitCh)
        else ([], fracSplit.2)
      | [] => ([], fracSplit.2)
    some (String.mk (signSplit.1 ++ ip ++ fracSplit.1 ++ expSplit.1),
      expSplit.2)

mutual

/-- One JSON value (leading whitespace allowed), returning the remainder. -/
def parseValue : ℕ → List Char → Option (Json × List Char)
  | 0, _ => none
  | fuel + 1, cs0 =>
    let cs := cs0.dropWhile pyIsSpace
    match cs with
    | [] => none
    | '"' :: rest =>
      (match parseStringBody (rest.length + 1) rest with
       | some (s, rest2) => some (.str s, rest2)
       | none => none)
    | '{' :: rest =>
      (match rest.dropWhile pyIsSpace with
       | '}' :: rest2 => some (.obj [], rest2)
       | rest1 =>
         match parseFields fuel rest1 with
         | some (fs, rest2) => some (.obj fs, rest2)
         | none => none)
    | '[' :: rest =>
      (match rest.dropWhile pyIsSpace with
       | ']' :: rest2 => some (.arr [], rest2)
       | rest1 =>
         match parseElems fuel rest1 with
         | some (es, rest2) => some (.arr es, rest2)
         | none => none)
    | _ =>
      if "null".toList.isPrefixOf cs then some (.null, cs.drop 4)
      else if "true".toList.isPrefixOf cs then some (.bool true, cs.drop 4)
      else if "false".toList.isPrefixOf cs then some (.bool false, cs.drop 5)
      else
        match parseNumberLex cs with
        | some (lex, rest) => some (.num lex, rest)
        | none =>
          if "NaN".toList.isPrefixOf cs then some (.num "NaN", cs.drop 3)
          else if "Infinity".toList.isPrefixOf cs then
            some (.num "Infinity", cs.drop 8)
          else if "-Infinity".toList.isPrefixOf cs then
            some (.num "-Infinity", cs.drop 9)
          else none

/-- Non-empty array elements after `[`. -/
def parseElems : ℕ → List Char → Option (List Json × List Char)
  | 0, _ => none
  | fuel + 1, cs =>
    match parseValue fuel cs with
    | none => none
    | some (j, rest) =>
      match rest.dropWhile pyIsSpace with
      | ',' :: rest2 =>
        (match parseElems fuel rest2 with
         | some (js, rest3) => some (j :: js, rest3)
         | none => none)
      | ']' :: rest2 => some ([j], rest2)
      | _ => none

/-- Non-empty object members after `{` (keys must be string literals). -/
def parseFields : ℕ → List Char → Option (List (String × Json) × List Char)
  | 0, _ => none
  | fuel + 1, cs =>
    match cs with
    | '"' :: rest =>
      (match parseStringBody (rest.length + 1) rest with
       | none => none
       | some (key, rest1) =>
         match rest1.dropWhile pyIsSpace with
         | ':' :: rest2 =>
           (match parseValue fuel rest2 with
            | none => none
            | some (j, rest3) =>
              match rest3.dropWhile pyIsSpace with
              | ',' :: rest4 =>
                (match parseFields fuel (rest4.dropWhile pyIsSpace) with
                 | some (fs, rest5) => some ((key, j) :: fs, rest5)
                 | none => none)
              | '}' :: rest4 => some ([(key, j)], rest4)
              | _ => none)
         | _ => none)
    | _ => none

end

/-- `json.loads` on a character list: one document, surrounding whitespace
allowed, trailing non-whitespace rejected ("Extra data"). -/
def jsonLoadsChars (cs : List Char) : Option Json :=
  match parseValue (2 * cs.length + 2) cs with
  | some (j, rest) => if rest.dropWhile pyIsSpace = [] then some j else none
  | none => none

/-- `json.loads`. -/
def jsonLoads (s : String) : Option Json := jsonLoadsChars s.toList

/-- The three-backtick token. -/
def ticks3 : List Char := ['`', '`', '`']

/-- The closing-fence token `"\n```"` of the lazy group. -/
def nlTicks : List Char := ['\n', '`', '`', '`']

/-- Scan for the first occurrence of `"\n```"`; return the characters before
it (the lazy group `(.*?)` takes the shortest match). -/
def findClose : List Char → Option (List Char)
  | [] => none
  | c :: rest =>
    if nlTicks.isPrefixOf (c :: rest) then some []
    else
      match findClose rest with
      | some g => some (c :: g)
      | none => none

/-- Group-start candidates of `\s*\n`: one per newline of the leading
whitespace run, with the longest `\s*` consumption (greedy) first. -/
def nlCandidates (cs : List Char) : List (List Char) :=
  ((List.range (cs.takeWhile pyIsSpace).length).filterMap (fun i =>
    if (cs.takeWhile pyIsSpace).getD i ' ' = '\n' then
      some ((cs.takeWhile pyIsSpace).drop (i + 1) ++ cs.dropWhile pyIsSpace)
    else none)).reverse

/-- `\s*\n(.*?)\n``` `: greedy over the whitespace split, lazy in the group. -/
def matchWsNl (cs : List Char) : Option (List Char) :=
  (nlCandidates cs).findSome? findClose

/-- `(?:json)?\s*\n(.*?)\n``` `: the greedy optional `json` tag first. -/
def matchAfterTicks (cs : List Char) : Option (List Char) :=
  match (if "json".toList.isPrefixOf cs then matchWsNl (cs.drop 4) else none) with
  | some g => some g
  | none => matchWsNl cs

/-- `re.search(r"```(?:json)?\s*\n(.*?)\n```", text, re.DOTALL)`: try every
start position left to right; a match must begin with three backticks;
return `group(1)`. -/
def fenceSearch : List Char → Option (List Char)
  | [] => none
  | c :: rest =>
    if ticks3.isPrefixOf (c :: rest) then
      match matchAfterTicks (rest.drop 2) with
      | some g => some g
      | none => fenceSearch rest
    else fenceSearch rest

/-- `text.find(ch)`, as an option instead of `-1`. -/
def pyFind (cs : List Char) (ch : Char) : Option ℕ :=
  cs.findIdx? (fun x => x = ch)

/-- `min((text.find(c) for c in ("{", "[") if text.find(c) >= 0), default=-1)`. -/
def firstBracketIdx (cs : List Char) : Option ℕ :=
  match pyFind cs '{', pyFind cs '[' with
  | some i, some j => some (min i j)
  | some i, none => some i
  | none, some j => some j
  | none, none => none

/-- Stage 2 of `_parse_json`: `if "```" in text: m = re.search(...);
if m: text = m.group(1).strip()`. -/
def fenceStage (t1 : List Char) : List Char :=
  if isSubChars ticks3 t1 then
    match fenceSearch t1 with
    | some g => pyStripChars g
    | none => t1
  else t1

/-- Stage 3 of `_parse_json`: `if not text.startswith(("{", "[")):
start = min(...); if start >= 0: text = text[start:]`. -/
def bracketStage (t2 : List Char) : List Char :=
  if t2.head? = some '{' ∨ t2.head? = some '[' then t2
  else
    match firstBracketIdx t2 with
    | some i => t2.drop i
    | none => t2

/-- `_parse_json` from src/utils/llm.py: strip, fence extraction, first
structural bracket, `json.loads`. -/
def parse_json (text : String) : Option Json :=
  jsonLoadsChars (bracketStage (fenceStage (pyStripChars text.toList)))

/-- The `"```json\n"` opening fence. -/
def fenceOpenJson : List Char := ['`', '`', '`', 'j', 's', 'o', 'n', '\n']

/-- The plain `"```\n"` opening fence. -/
def fenceOpen : List Char := ['`', '`', '`', '\n']

/-! ## Theorems -/

theorem Row.get_set (r : Row) (k k' : String) (v : Value) :
    (r.set k v).get k' = if k' = k then some v else r.get k' := by
  induction r with
  | nil =>
    by_cases h : k = k'
    · subst h; simp [Row.set, Row.get]
    · have h' : ¬ k' = k := fun e => h e.symm
      simp [Row.set, Row.get, h, h']
  | cons p rest ih =>
    obtain ⟨k₀, v₀⟩ := p
    by_cases h0 : k₀ = k
    · subst h0
      by_cases h : k₀ = k'
      · subst h; simp [Row.set, Row.get]
      · have h' : ¬ k' = k₀ := fun e => h e.symm
        simp [Row.set, Row.get, h, h']
    · by_cases h1 : k₀ = k'
      · subst h1
        simp [Row.set, Row.get, h0]
      · simp [Row.set, Row.get, h0, h1, ih]

/-- Characterisation of the fold: pass-through rows are exactly the
non-matching keywords (in order, unchanged) and auto-removed rows are
exactly the matching ones (in order, annotated). -/
theorem pre_filter_negatives_eq (keywords : List Row) (negative_terms : List String)
    (hne : negative_terms ≠ []) :
    pre_filter_negatives keywords negative_terms =
      (keywords.filter
        (fun kw => (firstMatch (negative_terms.map pyLower) (pyLower (kwText kw))).isNone),
       keywords.filterMap
        (fun kw => (firstMatch (negative_terms.map pyLower) (pyLower (kwText kw))).map
          (annotateNeg kw))) := by
  unfold pre_filter_negatives
  rw [if_neg hne]
  suffices h : ∀ (acc : List Row × List Row),
      keywords.foldl
        (fun (acc : List Row × List Row) kw =>
          let kw_lower := pyLower (match kw.get "keyword" with
            | some (.str s) => s
            | _ => "")
          match firstMatch (negative_terms.map pyLower) kw_lower with
          | some t => (acc.1, acc.2 ++ [annotateNeg kw t])
          | none => (acc.1 ++ [kw], acc.2)) acc =
      (acc.1 ++ keywords.filter
        (fun kw => (firstMatch (negative_terms.map pyLower) (pyLower (kwText kw))).isNone),
       acc.2 ++ keywords.filterMap
        (fun kw => (firstMatch (negative_terms.map pyLower) (pyLower (kwText kw))).map
          (annotateNeg kw))) by
    simpa using h ([], [])
  induction keywords with
  | nil => intro acc; simp
  | cons kw rest ih =>
    intro acc
    simp only [List.foldl_cons]
    cases hm : firstMatch (negative_terms.map pyLower) (pyLower (kwText kw)) with
    | none =>
      simp only [kwText] at hm
      simp [hm, ih, List.filter_cons, List.filterMap_cons, kwText, hm]
    | some t =>
      simp only [kwText] at hm
      simp [hm, ih, List.filter_cons, List.filterMap_cons, kwText, hm]

theorem annotateNeg_get (kw : Row) (t : String) :
    (annotateNeg kw t).get "classification" = some (.str "REMOVE") ∧
    (annotateNeg kw t).get "confidence" = some (.num 100) ∧
    (annotateNeg kw t).get "reason" =
      some (.str ("Matched negative keyword: " ++ t)) ∧
    ∀ key, key ∉ negAnnKeys → (annotateNeg kw t).get key = kw.get key := by
  refine ⟨?_, ?_, ?_, ?_⟩ <;> simp [annotateNeg, Row.get_set, negAnnKeys]
  intro key h1 h2 h3
  simp [h1, h2, h3]

/-- **C5 counterexample.** The claim states the auto-removed reason text is
`"matched negative keyword: <term>"`; the code writes
`f"Matched negative keyword: {matched_term}"` — capitalised, with the term
lowercased.  At keyword "buy spam now" and negative term "spam" the produced
reason differs from the claimed one. -/
theorem C5_counterexample :
    (pre_filter_negatives [[("keyword", Value.str "buy spam now")]] ["spam"]).2 =
      [[("keyword", Value.str "buy spam now"),
        ("classification", Value.str "REMOVE"),
        ("confidence", Value.num 100),
        ("reason", Value.str "Matched negative keyword: spam")]] ∧
    ((pre_filter_negatives [[("keyword", Value.str "buy spam now")]] ["spam"]).2.headI).get
        "reason" ≠ some (Value.str "matched negative keyword: spam") := by
  constructor <;> decide

/-- **C5 (amended).** `pre_filter_negatives` sends every keyword whose text
contains (case-insensitive substring) at least one negative term to the
auto-removed list — annotated, on top of the unchanged original columns, with
classification "REMOVE", confidence 100 and reason
`"Matched negative keyword: <t>"` where `<t>` is the lowercase form of the
first matching term — and returns every other keyword unchanged, in order, in
the pass-through list; the function is pure, so no Gateway call is made for
any auto-removed row. -/
theorem C5_pre_filter_split (keywords : List Row) (negative_terms : List String)
    (hne : negative_terms ≠ []) :
    (pre_filter_negatives keywords negative_terms).1 =
      keywords.filter
        (fun kw => (firstMatch (negative_terms.map pyLower) (pyLower (kwText kw))).isNone) ∧
    (pre_filter_negatives keywords negative_terms).2 =
      keywords.filterMap
        (fun kw => (firstMatch (negative_terms.map pyLower) (pyLower (kwText kw))).map
          (annotateNeg kw)) ∧
    ∀ kw t, (annotateNeg kw t).get "classification" = some (.str "REMOVE") ∧
      (annotateNeg kw t).get "confidence" = some (.num 100) ∧
      (annotateNeg kw t).get "reason" =
        some (.str ("Matched negative keyword: " ++ t)) ∧
      ∀ key, key ∉ negAnnKeys → (annotateNeg kw t).get key = kw.get key := by
  have h := pre_filter_negatives_eq keywords negative_terms hne
  exact ⟨by rw [h], by rw [h], fun kw t => annotateNeg_get kw t⟩

/-- Witness for C5: on a concrete matching and a concrete non-matching
keyword with term list `["SPAM"]`, the amended theorem's hypotheses hold and
its conclusion evaluates as expected. -/
theorem C5_witness :
    (["SPAM"] : List String) ≠ [] ∧
    (pre_filter_negatives
        [[("keyword", Value.str "buy Spam now")], [("keyword", Value.str "nice dog")]]
        ["SPAM"]).1 = [[("keyword", Value.str "nice dog")]] ∧
    (pre_filter_negatives
        [[("keyword", Value.str "buy Spam now")], [("keyword", Value.str "nice dog")]]
        ["SPAM"]).2 =
      [[("keyword", Value.str "buy Spam now"),
        ("classification", Value.str "REMOVE"),
        ("confidence", Value.num 100),
        ("reason", Value.str "Matched negative keyword: spam")]] := by
  have h := C5_pre_filter_split
    [[("keyword", Value.str "buy Spam now")], [("keyword", Value.str "nice dog")]]
    ["SPAM"] (by decide)
  exact ⟨by decide, by rw [h.1]; decide, by rw [h.2.1]; decide⟩

theorem recordAll_calls (cs : List RecordArgs) (t : CostTracker) :
    (recordAll t cs).calls = t.calls ++ cs.map entryOf := by
  induction cs generalizing t with
  | nil => simp [recordAll]
  | cons c rest ih =>
    simp [recordAll, CostTracker.record, entryOf] at *
    rw [ih]
    simp [CostTracker.record, entryOf]

theorem recordAll_totals (cs : List RecordArgs) (t : CostTracker) :
    (recordAll t cs).total_input_tokens
        = t.total_input_tokens + (cs.map (fun c => c.2.1)).sum ∧
    (recordAll t cs).total_output_tokens
        = t.total_output_tokens + (cs.map (fun c => c.2.2.1)).sum ∧
    (recordAll t cs).total_cost_usd
        = t.total_cost_usd + (cs.map (fun c => callCost c.1 c.2.1 c.2.2.1)).sum := by
  induction cs generalizing t with
  | nil => simp [recordAll]
  | cons c rest ih =>
    have hcons : recordAll t (c :: rest)
        = recordAll (t.record c.1 c.2.1 c.2.2.1 c.2.2.2) rest := rfl
    rw [hcons]
    simp only [List.map_cons, List.sum_cons]
    refine ⟨?_, ?_, ?_⟩
    · rw [(ih _).1]; simp [CostTracker.record]; ring
    · rw [(ih _).2.1]; simp [CostTracker.record]; ring
    · rw [(ih _).2.2]; simp [CostTracker.record]; ring

/-- **C10 counterexample.** `summary()` rounds the exact running cost total
to 4 decimal places, so it is not the sum of the per-entry `cost_usd` values
(themselves rounded to 6 decimals): after a single
`record("anthropic/claude-haiku-4.5", 0, 1)` the entry holds 0.000005 USD
while the summary reports 0.0. -/
theorem C10_counterexample :
    ((CostTracker.new.record "anthropic/claude-haiku-4.5" 0 1
        "classify_keywords").summary).total_cost_usd
      ≠ (((CostTracker.new.record "anthropic/claude-haiku-4.5" 0 1
        "classify_keywords").calls.map (fun e => e.cost_usd)).sum) := by
  have hcost : callCost "anthropic/claude-haiku-4.5" 0 1 = 5/1000000 := by
    simp [callCost, pricingOrDefault, MODEL_PRICING]
  have h4 : pyRound (5/1000000) 4 = 0 := by
    have h : ((5:ℚ)/1000000) * 10 ^ 4 = 1/20 := by norm_num
    unfold pyRound roundHalfEven
    rw [h]
    have hf : ⌊(1/20 : ℚ)⌋ = 0 := by
      rw [Int.floor_eq_zero_iff, Set.mem_Ico]
      constructor <;> norm_num
    rw [hf]
    norm_num
  have h6 : pyRound (5/1000000) 6 = 5/1000000 := by
    have h : ((5:ℚ)/1000000) * 10 ^ 6 = 5 := by norm_num
    unfold pyRound roundHalfEven
    rw [h]
    have hf : ⌊(5 : ℚ)⌋ = 5 := by
      rw [show ((5 : ℚ)) = ((5 : ℤ) : ℚ) by norm_num, Int.floor_intCast]
    rw [hf]
    norm_num
  show pyRound (0 + callCost "anthropic/claude-haiku-4.5" 0 1) 4
      ≠ pyRound (callCost "anthropic/claude-haiku-4.5" 0 1) 6 + 0
  rw [hcost, zero_add, add_zero, h4, h6]
  norm_num

/-- **C10 (amended).** After any sequence of `record` calls starting from a
fresh tracker: `summary().total_calls` is the number of recorded calls;
`total_input_tokens` and `total_output_tokens` equal the sums of the
corresponding per-entry values; `total_cost_usd` is the sum of the exact
(unrounded) per-call costs rounded to 4 decimal places — not the sum of the
per-entry 6-decimal `cost_usd` values; and `record` only ever appends one new
entry, never mutating or removing earlier entries. -/
theorem C10_cost_tracker (cs : List RecordArgs) :
    ((recordAll CostTracker.new cs).summary).total_calls = cs.length ∧
    ((recordAll CostTracker.new cs).summary).total_input_tokens
      = ((recordAll CostTracker.new cs).calls.map (fun e => e.input_tokens)).sum ∧
    ((recordAll CostTracker.new cs).summary).total_output_tokens
      = ((recordAll CostTracker.new cs).calls.map (fun e => e.output_tokens)).sum ∧
    ((recordAll CostTracker.new cs).summary).total_cost_usd
      = pyRound ((cs.map (fun c => callCost c.1 c.2.1 c.2.2.1)).sum) 4 ∧
    ∀ t' : CostTracker, (recordAll t' cs).calls = t'.calls ++ cs.map entryOf := by
  have hc := recordAll_calls cs CostTracker.new
  have ht := recordAll_totals cs CostTracker.new
  refine ⟨?_, ?_, ?_, ?_, fun t' => recordAll_calls cs t'⟩
  · show (recordAll CostTracker.new cs).calls.length = cs.length
    rw [hc]; simp [CostTracker.new]
  · show (recordAll CostTracker.new cs).total_input_tokens
        = ((recordAll CostTracker.new cs).calls.map (fun e => e.input_tokens)).sum
    rw [ht.1, hc]
    simp [CostTracker.new, entryOf, List.map_map, Function.comp_def]
  · show (recordAll CostTracker.new cs).total_output_tokens
        = ((recordAll CostTracker.new cs).calls.map (fun e => e.output_tokens)).sum
    rw [ht.2.1, hc]
    simp [CostTracker.new, entryOf, List.map_map, Function.comp_def]
  · show pyRound (recordAll CostTracker.new cs).total_cost_usd 4
        = pyRound ((cs.map (fun c => callCost c.1 c.2.1 c.2.2.1)).sum) 4
    rw [ht.2.2]
    simp [CostTracker.new]

theorem chatRetry_cases (call : ℕ → Except ε α) :
    chatRetry call =
      match call 1 with
      | .ok v => ⟨.ok v, 1, []⟩
      | .error _ =>
        match call 2 with
        | .ok v => ⟨.ok v, 2, [chatWait 1]⟩
        | .error _ =>
          match call 3 with
          | .ok v => ⟨.ok v, 3, [chatWait 1, chatWait 2]⟩
          | .error e => ⟨.error e, 3, [chatWait 1, chatWait 2]⟩ := by
  cases h1 : call 1 <;> cases h2 : call 2 <;> cases h3 : call 3 <;>
    simp [chatRetry, retryGo, h1, h2, h3]

theorem chatWait_one : chatWait 1 = 2 := by decide

theorem chatWait_le (a : ℕ) : chatWait a ≤ 30 := by
  simp only [chatWait, waitExponential]
  omega

theorem chatWait_doubling (a : ℕ) (ha : 1 ≤ a) :
    chatWait (a + 1) = min (2 * chatWait a) 30 := by
  have hpow : (2 : ℕ) ^ ((a + 1) - 1) = 2 * 2 ^ (a - 1) := by
    rw [Nat.add_sub_cancel]
    conv_lhs => rw [show a = (a - 1) + 1 by omega]
    rw [pow_succ]
    ring
  simp only [chatWait, waitExponential, hpow]
  have hX : 1 ≤ 2 ^ (a - 1) := Nat.one_le_two_pow
  generalize 2 ^ (a - 1) = X at hX ⊢
  omega

/-- **C4.** `_chat` is attempted at most 3 times in total; between attempts
it sleeps per `wait_exponential(multiplier=2, min=2, max=30)` — first gap 2
seconds, doubling, capped at 30 seconds; after the 3rd failed attempt the
last failure propagates to the caller; and `_parse_json` runs only after the
retry-wrapped call has returned, so a parse failure never triggers a retry
(with a first-attempt success, exactly one attempt is made whatever the
parser does). -/
theorem C4_retry_policy (call : ℕ → Except String String)
    (parse : String → Except String Value) :
    (chatRetry call).attemptsMade ≤ 3 ∧
    (chatRetry call).sleeps
      = [chatWait 1, chatWait 2].take ((chatRetry call).attemptsMade - 1) ∧
    chatWait 1 = 2 ∧
    (∀ a, chatWait a ≤ 30) ∧
    (∀ a, 1 ≤ a → chatWait (a + 1) = min (2 * chatWait a) 30) ∧
    (∀ e1 e2 e3, call 1 = .error e1 → call 2 = .error e2 → call 3 = .error e3 →
      (chatRetry call).result = .error e3) ∧
    (taskRun call parse).attemptsMade = (chatRetry call).attemptsMade ∧
    (taskRun call parse).sleeps = (chatRetry call).sleeps ∧
    (∀ raw, call 1 = .ok raw →
      taskRun call parse = ⟨parse raw, 1, []⟩) := by
  refine ⟨?_, ?_, chatWait_one, chatWait_le, chatWait_doubling, ?_, ?_, ?_, ?_⟩
  · rw [chatRetry_cases]
    cases call 1 <;> cases call 2 <;> cases call 3 <;> simp
  · rw [chatRetry_cases]
    cases call 1 <;> cases call 2 <;> cases call 3 <;> simp
  · intro e1 e2 e3 h1 h2 h3
    rw [chatRetry_cases, h1, h2, h3]
  · unfold taskRun
    cases h : (chatRetry call).result <;> simp [h]
  · unfold taskRun
    cases h : (chatRetry call).result <;> simp [h]
  · intro raw h1
    unfold taskRun
    rw [chatRetry_cases, h1]

/-- Witness for C4 at concrete transports: a call failing all three attempts
propagates the third error after sleeps `[2, 4]`, and a call succeeding on
attempt 1 whose parse fails makes exactly one attempt. -/
theorem C4_witness :
    (chatRetry (fun _ => (.error "boom" : Except String String))).result
        = .error "boom" ∧
    (chatRetry (fun _ => (.error "boom" : Except String String))).sleeps = [2, 4] ∧
    taskRun (fun _ => (.ok "not json" : Except String String))
        (fun _ => (.error "parse failure" : Except String Value))
      = ⟨.error "parse failure", 1, []⟩ := by
  have h₁ := C4_retry_policy (fun _ => (.error "boom" : Except String String))
    (fun _ => (.error "parse failure" : Except String Value))
  have h₂ := C4_retry_policy (fun _ => (.ok "not json" : Except String String))
    (fun _ => (.error "parse failure" : Except String Value))
  refine ⟨h₁.2.2.2.2.2.1 "boom" "boom" "boom" rfl rfl rfl, ?_, ?_⟩
  · rw [h₁.2.1]
    have ha : (chatRetry (fun _ => (.error "boom" : Except String String))).attemptsMade
        = 3 := by
      rw [chatRetry_cases]
    rw [ha]
    decide
  · exact h₂.2.2.2.2.2.2.2.2 "not json" rfl

/-- **C9 counterexample.** With the credential missing, the gateway call does
NOT fail without consuming retry attempts or backoff sleeps: all 3 attempts
run and the backoff sleeps `[2, 4]` are consumed before the error surfaces. -/
theorem C9_counterexample :
    (chatRetry (chatAttempt none (fun _ => .ok "unused"))).attemptsMade = 3 ∧
    (chatRetry (chatAttempt none (fun _ => .ok "unused"))).sleeps = [2, 4] := by
  constructor <;> rfl

/-- **C9 (amended).** When `OPENROUTER_API_KEY` is missing, every attempt
fails with the actionable configuration error before the provider transport
is ever consulted (the outcome is independent of the transport), no provider
call is made — but the failure passes through the retry decorator, consuming
all 3 attempts and the backoff sleeps `[2, 4]` before the `ValueError`
propagates to the caller. -/
theorem C9_missing_key (transport : ℕ → Except String String) :
    (∀ t' a, chatAttempt none transport a = chatAttempt none t' a) ∧
    (∀ a, chatAttempt none transport a = .error (.config missingKeyMsg)) ∧
    (chatRetry (chatAttempt none transport)).result
        = .error (.config missingKeyMsg) ∧
    (chatRetry (chatAttempt none transport)).attemptsMade = 3 ∧
    (chatRetry (chatAttempt none transport)).sleeps = [chatWait 1, chatWait 2] := by
  refine ⟨fun t' a => rfl, fun a => rfl, ?_, ?_, ?_⟩ <;>
    simp [chatRetry, retryGo, chatAttempt]

theorem batchAt_eq (rows : List Row) (i : ℕ) :
    batchAt rows i = (rows.drop (i * BATCH_SIZE)).take BATCH_SIZE := by
  unfold batchAt
  rw [List.take_eq_take]
  simp only [List.length_drop]
  omega

theorem length_batchAt (rows : List Row) (i : ℕ) :
    (batchAt rows i).length = min BATCH_SIZE (rows.length - i * BATCH_SIZE) := by
  rw [batchAt_eq]
  simp [List.length_take, List.length_drop]

theorem flatten_batches (rows : List Row) (k : ℕ) :
    ((List.range k).map (batchAt rows)).flatten = rows.take (k * BATCH_SIZE) := by
  induction k with
  | zero => simp
  | succ k ih =>
    rw [List.range_succ, List.map_append, List.flatten_append, ih]
    simp only [List.map_cons, List.map_nil, List.flatten_cons, List.flatten_nil,
      List.append_nil, batchAt_eq]
    rw [← List.take_add]
    congr 1
    ring

/-- Fetching batch `i` out of the slice list. -/
theorem batchSlices_getD (rows : List Row) (i : ℕ) (hn : rows.length ≠ 0)
    (hi : i < total_batches rows.length) :
    (batchSlices rows).getD i [] = batchAt rows i := by
  unfold batchSlices
  rw [if_neg hn]
  rw [List.getD_eq_getElem?_getD, List.getElem?_map, List.getElem?_range hi]
  rfl

/-- **C1.** Batching N keyword rows yields exactly `⌈N/100⌉` batches whose
concatenation, in order, is the original row sequence; every batch except
possibly the last has exactly 100 rows, every batch is non-empty and has at
most 100 rows; and (page guard) zero input rows give zero batches and an
empty result. -/
theorem C1_batching (rows : List Row) :
    (batchSlices rows).length = (rows.length + BATCH_SIZE - 1) / BATCH_SIZE ∧
    (batchSlices rows).flatten = rows ∧
    (∀ i, i + 1 < (batchSlices rows).length →
      ((batchSlices rows).getD i []).length = BATCH_SIZE) ∧
    (∀ i, i < (batchSlices rows).length →
      0 < ((batchSlices rows).getD i []).length ∧
      ((batchSlices rows).getD i []).length ≤ BATCH_SIZE) ∧
    (rows = [] → batchSlices rows = []) := by
  by_cases hn : rows.length = 0
  · have hrows : rows = [] := List.length_eq_zero.mp hn
    subst hrows
    refine ⟨by simp [batchSlices, BATCH_SIZE], by simp [batchSlices], ?_, ?_, fun _ => by simp [batchSlices]⟩
    · intro i hi; simp [batchSlices] at hi
    · intro i hi; simp [batchSlices] at hi
  · have hpos : 1 ≤ rows.length := Nat.one_le_iff_ne_zero.mpr hn
    have hceil : 1 ≤ (rows.length + BATCH_SIZE - 1) / BATCH_SIZE := by
      rw [Nat.le_div_iff_mul_le (by norm_num [BATCH_SIZE])]
      simp only [BATCH_SIZE]
      omega
    have htb : total_batches rows.length
        = (rows.length + BATCH_SIZE - 1) / BATCH_SIZE := by
      simp [total_batches]
      omega
    have hlen : (batchSlices rows).length
        = (rows.length + BATCH_SIZE - 1) / BATCH_SIZE := by
      unfold batchSlices
      rw [if_neg hn]
      simp [htb]
    refine ⟨hlen, ?_, ?_, ?_, fun habs => absurd (congrArg List.length habs) (by simp [hn])⟩
    · unfold batchSlices
      rw [if_neg hn, flatten_batches]
      apply List.take_of_length_le
      have h1 : rows.length ≤ total_batches rows.length * BATCH_SIZE := by
        rw [htb]
        have hdm := Nat.div_add_mod (rows.length + BATCH_SIZE - 1) BATCH_SIZE
        have hm : (rows.length + BATCH_SIZE - 1) % BATCH_SIZE < BATCH_SIZE :=
          Nat.mod_lt _ (by norm_num [BATCH_SIZE])
        simp only [BATCH_SIZE] at hdm hm ⊢
        omega
      exact h1
    · intro i hi
      rw [hlen] at hi
      have hi' : i < total_batches rows.length := by rw [htb]; omega
      rw [batchSlices_getD rows i hn hi', length_batchAt]
      have hmul : (i + 2) * BATCH_SIZE ≤ rows.length + BATCH_SIZE - 1 := by
        rw [← Nat.le_div_iff_mul_le (by norm_num [BATCH_SIZE])]
        omega
      simp only [BATCH_SIZE] at hmul ⊢
      omega
    · intro i hi
      rw [hlen] at hi
      have hi' : i < total_batches rows.length := by rw [htb]; omega
      rw [batchSlices_getD rows i hn hi', length_batchAt]
      have hnd : ¬ ((rows.length + BATCH_SIZE - 1) / BATCH_SIZE ≤ i) := by omega
      rw [Nat.div_le_iff_le_mul_add_pred (by norm_num [BATCH_SIZE])] at hnd
      simp only [BATCH_SIZE] at hnd ⊢
      omega

/-- Witness for C1: 205 rows give 3 batches; batch 1 has exactly 100 rows;
batch 2 (the last) is non-empty with at most 100 rows. -/
theorem C1_witness :
    1 + 1 < (batchSlices wrows).length ∧
    ((batchSlices wrows).getD 1 []).length = BATCH_SIZE ∧
    2 < (batchSlices wrows).length ∧
    0 < ((batchSlices wrows).getD 2 []).length ∧
    ((batchSlices wrows).getD 2 []).length ≤ BATCH_SIZE := by
  have h := C1_batching wrows
  have hlen : (batchSlices wrows).length = 3 := by
    rw [h.1]
    unfold wrows
    rw [List.length_replicate]
    decide
  have h2 : 1 + 1 < (batchSlices wrows).length := by rw [hlen]; decide
  have h3 : 2 < (batchSlices wrows).length := by rw [hlen]; decide
  exact ⟨h2, h.2.2.1 1 h2, h3, (h.2.2.2.1 2 h3).1, (h.2.2.2.1 2 h3).2⟩

theorem range_succ_eq (k : ℕ) : List.range (k + 1) = List.range k ++ [k] := by
  simpa using List.range_succ (n := k)

theorem cleanRunTo_succ (rows : List Row) (oracle : CleanOracle) (k : ℕ) :
    cleanRunTo rows oracle (k + 1)
      = cleanStep rows oracle (cleanRunTo rows oracle k) k := by
  unfold cleanRunTo
  rw [range_succ_eq, List.foldl_append]
  rfl

theorem mapRunTo_succ (rows : List Row) (oracle : MapOracle) (k : ℕ) :
    mapRunTo rows oracle (k + 1)
      = mapStep rows oracle (mapRunTo rows oracle k) k := by
  unfold mapRunTo
  rw [range_succ_eq, List.foldl_append]
  rfl

theorem cleanRunTo_lengths (rows : List Row) (oracle : CleanOracle) (k : ℕ) :
    (cleanRunTo rows oracle k).checkpoints.length = k ∧
    (cleanRunTo rows oracle k).outputs.length = k ∧
    (cleanRunTo rows oracle k).calls.length = k := by
  induction k with
  | zero => exact ⟨rfl, rfl, rfl⟩
  | succ k ih =>
    rw [cleanRunTo_succ]
    unfold cleanStep
    cases h : oracle k (examplesArg (cleanRunTo rows oracle k)) <;>
      simp [h, ih.1, ih.2.1, ih.2.2]

theorem mapRunTo_lengths (rows : List Row) (oracle : MapOracle) (k : ℕ) :
    (mapRunTo rows oracle k).checkpoints.length = k ∧
    (mapRunTo rows oracle k).outputs.length = k := by
  induction k with
  | zero => exact ⟨rfl, rfl⟩
  | succ k ih =>
    rw [mapRunTo_succ]
    unfold mapStep
    cases h : oracle k <;> simp [h, ih.1, ih.2]

theorem cleanRunTo_all_results (rows : List Row) (oracle : CleanOracle) (k : ℕ) :
    (cleanRunTo rows oracle k).all_results
      = (cleanRunTo rows oracle k).outputs.flatten := by
  induction k with
  | zero => rfl
  | succ k ih =>
    rw [cleanRunTo_succ]
    unfold cleanStep
    cases h : oracle k (examplesArg (cleanRunTo rows oracle k)) <;> simp [h, ih]

theorem mapRunTo_all_results (rows : List Row) (oracle : MapOracle) (k : ℕ) :
    (mapRunTo rows oracle k).all_results
      = (mapRunTo rows oracle k).outputs.flatten := by
  induction k with
  | zero => rfl
  | succ k ih =>
    rw [mapRunTo_succ]
    unfold mapStep
    cases h : oracle k <;> simp [h, ih]

theorem cleanRunTo_checkpoints (rows : List Row) (oracle : CleanOracle)
    (k i : ℕ) (hi : i < k) :
    (cleanRunTo rows oracle k).checkpoints.getD i []
      = ((cleanRunTo rows oracle k).outputs.take (i + 1)).flatten := by
  induction k with
  | zero => omega
  | succ k ih =>
    have hck : (cleanRunTo rows oracle k).checkpoints.length = k :=
      (cleanRunTo_lengths rows oracle k).1
    have hok : (cleanRunTo rows oracle k).outputs.length = k :=
      (cleanRunTo_lengths rows oracle k).2.1
    have hall := cleanRunTo_all_results rows oracle k
    rw [cleanRunTo_succ]
    rcases Nat.lt_succ_iff_lt_or_eq.mp hi with h | h
    · unfold cleanStep
      cases ho : oracle k (examplesArg (cleanRunTo rows oracle k)) <;>
        simp only [ho] <;>
        rw [List.getD_eq_getElem?_getD, List.getElem?_append_left (by omega),
          ← List.getD_eq_getElem?_getD,
          List.take_append_of_le_length (by omega), ih h]
    · subst h
      unfold cleanStep
      cases ho : oracle i (examplesArg (cleanRunTo rows oracle i)) with
      | error e =>
        simp only [ho]
        have hidx := List.getElem?_concat_length
          ((cleanRunTo rows oracle i).checkpoints)
          ((cleanRunTo rows oracle i).all_results ++
            (batchAt rows i).map (classifyDegrade e))
        rw [hck] at hidx
        rw [List.getD_eq_getElem?_getD, hidx]
        have htake : ((cleanRunTo rows oracle i).outputs ++
            [(batchAt rows i).map (classifyDegrade e)]).take (i + 1)
            = (cleanRunTo rows oracle i).outputs ++
              [(batchAt rows i).map (classifyDegrade e)] := by
          apply List.take_of_length_le
          simp [hok]
        rw [htake]
        simp [hall]
      | ok res =>
        simp only [ho]
        have hidx := List.getElem?_concat_length
          ((cleanRunTo rows oracle i).checkpoints)
          ((cleanRunTo rows oracle i).all_results ++
            mergeBatch classifyAnnotate rows (i * BATCH_SIZE) res)
        rw [hck] at hidx
        rw [List.getD_eq_getElem?_getD, hidx]
        have htake : ((cleanRunTo rows oracle i).outputs ++
            [mergeBatch classifyAnnotate rows (i * BATCH_SIZE) res]).take (i + 1)
            = (cleanRunTo rows oracle i).outputs ++
              [mergeBatch classifyAnnotate rows (i * BATCH_SIZE) res] := by
          apply List.take_of_length_le
          simp [hok]
        rw [htake]
        simp [hall]

theorem mapRunTo_checkpoints (rows : List Row) (oracle : MapOracle)
    (k i : ℕ) (hi : i < k) :
    (mapRunTo rows oracle k).checkpoints.getD i []
      = ((mapRunTo rows oracle k).outputs.take (i + 1)).flatten := by
  induction k with
  | zero => omega
  | succ k ih =>
    have hck : (mapRunTo rows oracle k).checkpoints.length = k :=
      (mapRunTo_lengths rows oracle k).1
    have hok : (mapRunTo rows oracle k).outputs.length = k :=
      (mapRunTo_lengths rows oracle k).2
    have hall := mapRunTo_all_results rows oracle k
    rw [mapRunTo_succ]
    rcases Nat.lt_succ_iff_lt_or_eq.mp hi with h | h
    · unfold mapStep
      cases ho : oracle k <;>
        simp only [ho] <;>
        rw [List.getD_eq_getElem?_getD, List.getElem?_append_left (by omega),
          ← List.getD_eq_getElem?_getD,
          List.take_append_of_le_length (by omega), ih h]
    · subst h
      unfold mapStep
      cases ho : oracle i with
      | error e =>
        simp only [ho]
        have hidx := List.getElem?_concat_length
          ((mapRunTo rows oracle i).checkpoints)
          ((mapRunTo rows oracle i).all_results ++
            (batchAt rows i).map (mapDegrade e))
        rw [hck] at hidx
        rw [List.getD_eq_getElem?_getD, hidx]
        have htake : ((mapRunTo rows oracle i).outputs ++
            [(batchAt rows i).map (mapDegrade e)]).take (i + 1)
            = (mapRunTo rows oracle i).outputs ++
              [(batchAt rows i).map (mapDegrade e)] := by
          apply List.take_of_length_le
          simp [hok]
        rw [htake]
        simp [hall]
      | ok res =>
        simp only [ho]
        have hidx := List.getElem?_concat_length
          ((mapRunTo rows oracle i).checkpoints)
          ((mapRunTo rows oracle i).all_results ++
            mergeBatch mapAnnotate rows (i * BATCH_SIZE) res)
        rw [hck] at hidx
        rw [List.getD_eq_getElem?_getD, hidx]
        have htake : ((mapRunTo rows oracle i).outputs ++
            [mergeBatch mapAnnotate rows (i * BATCH_SIZE) res]).take (i + 1)
            = (mapRunTo rows oracle i).outputs ++
              [mergeBatch mapAnnotate rows (i * BATCH_SIZE) res] := by
          apply List.take_of_length_le
          simp [hok]
        rw [htake]
        simp [hall]

theorem cleanRunTo_outputs_getD (rows : List Row) (oracle : CleanOracle)
    (m i : ℕ) (hi : i < m) :
    (cleanRunTo rows oracle m).outputs.getD i []
      = cleanOutputAt rows oracle i := by
  induction m with
  | zero => omega
  | succ m ih =>
    have hom : (cleanRunTo rows oracle m).outputs.length = m :=
      (cleanRunTo_lengths rows oracle m).2.1
    rw [cleanRunTo_succ]
    rcases Nat.lt_succ_iff_lt_or_eq.mp hi with h | h
    · unfold cleanStep
      cases ho : oracle m (examplesArg (cleanRunTo rows oracle m)) <;>
        simp only [ho] <;>
        rw [List.getD_eq_getElem?_getD, List.getElem?_append_left (by omega),
          ← List.getD_eq_getElem?_getD, ih h]
    · subst h
      unfold cleanStep cleanOutputAt
      cases ho : oracle i (examplesArg (cleanRunTo rows oracle i)) with
      | error e =>
        simp only [ho]
        have hidx := List.getElem?_concat_length
          ((cleanRunTo rows oracle i).outputs)
          ((batchAt rows i).map (classifyDegrade e))
        rw [hom] at hidx
        rw [List.getD_eq_getElem?_getD, hidx]
        rfl
      | ok res =>
        simp only [ho]
        have hidx := List.getElem?_concat_length
          ((cleanRunTo rows oracle i).outputs)
          (mergeBatch classifyAnnotate rows (i * BATCH_SIZE) res)
        rw [hom] at hidx
        rw [List.getD_eq_getElem?_getD, hidx]
        rfl

theorem mapRunTo_outputs_getD (rows : List Row) (oracle : MapOracle)
    (m i : ℕ) (hi : i < m) :
    (mapRunTo rows oracle m).outputs.getD i [] = mapOutputAt rows oracle i := by
  induction m with
  | zero => omega
  | succ m ih =>
    have hom : (mapRunTo rows oracle m).outputs.length = m :=
      (mapRunTo_lengths rows oracle m).2
    rw [mapRunTo_succ]
    rcases Nat.lt_succ_iff_lt_or_eq.mp hi with h | h
    · unfold mapStep
      cases ho : oracle m <;>
        simp only [ho] <;>
        rw [List.getD_eq_getElem?_getD, List.getElem?_append_left (by omega),
          ← List.getD_eq_getElem?_getD, ih h]
    · subst h
      unfold mapStep mapOutputAt
      cases ho : oracle i with
      | error e =>
        simp only [ho]
        have hidx := List.getElem?_concat_length
          ((mapRunTo rows oracle i).outputs)
          ((batchAt rows i).map (mapDegrade e))
        rw [hom] at hidx
        rw [List.getD_eq_getElem?_getD, hidx]
        rfl
      | ok res =>
        simp only [ho]
        have hidx := List.getElem?_concat_length
          ((mapRunTo rows oracle i).outputs)
          (mergeBatch mapAnnotate rows (i * BATCH_SIZE) res)
        rw [hom] at hidx
        rw [List.getD_eq_getElem?_getD, hidx]
        rfl

/-- `cleanRun` unfolds to `cleanRunTo` on non-empty input. -/
theorem cleanRun_eq (rows : List Row) (oracle : CleanOracle) (hn : rows ≠ []) :
    cleanRun rows oracle = cleanRunTo rows oracle (total_batches rows.length) := by
  unfold cleanRun
  rw [if_neg (by simpa using hn)]

/-- `mapRun` unfolds to `mapRunTo` on non-empty input. -/
theorem mapRun_eq (rows : List Row) (oracle : MapOracle) (hn : rows ≠ []) :
    mapRun rows oracle = mapRunTo rows oracle (total_batches rows.length) := by
  unfold mapRun
  rw [if_neg (by simpa using hn)]

theorem cleanRunTo_outputs_take (rows : List Row) (oracle : CleanOracle)
    (m k : ℕ) (hk : k ≤ m) :
    (cleanRunTo rows oracle m).outputs.take k
      = (List.range k).map (cleanOutputAt rows oracle) := by
  have hom := (cleanRunTo_lengths rows oracle m).2.1
  apply List.ext_getElem?
  intro i
  rw [List.getElem?_take, List.getElem?_map]
  by_cases hik : i < k
  · rw [if_pos hik, List.getElem?_range hik]
    have hil : i < (cleanRunTo rows oracle m).outputs.length := by omega
    rw [List.getElem?_eq_getElem hil]
    rw [← List.getD_eq_getElem _ [] hil,
      cleanRunTo_outputs_getD rows oracle m i (by omega)]
    rfl
  · rw [if_neg hik]
    have : (List.range k)[i]? = none := by
      apply List.getElem?_eq_none
      simpa using hik
    rw [this]
    rfl

theorem mapRunTo_outputs_take (rows : List Row) (oracle : MapOracle)
    (m k : ℕ) (hk : k ≤ m) :
    (mapRunTo rows oracle m).outputs.take k
      = (List.range k).map (mapOutputAt rows oracle) := by
  have hom := (mapRunTo_lengths rows oracle m).2
  apply List.ext_getElem?
  intro i
  rw [List.getElem?_take, List.getElem?_map]
  by_cases hik : i < k
  · rw [if_pos hik, List.getElem?_range hik]
    have hil : i < (mapRunTo rows oracle m).outputs.length := by omega
    rw [List.getElem?_eq_getElem hil]
    rw [← List.getD_eq_getElem _ [] hil,
      mapRunTo_outputs_getD rows oracle m i (by omega)]
    rfl
  · rw [if_neg hik]
    have : (List.range k)[i]? = none := by
      apply List.getElem?_eq_none
      simpa using hik
    rw [this]
    rfl

/-- **C2.** In both loops, one checkpoint (`save_results` payload) is
persisted per completed batch — whether it succeeded or failed — and the
checkpoint written after batch k is exactly the concatenation, in order, of
the annotated row blocks of batches 1..k (`cleanOutputAt`/`mapOutputAt` is
batch j's annotated block: the merged rows on success, the degraded rows on
failure), not just batch k's rows. -/
theorem C2_checkpoint_accumulation (rowsC rowsM : List Row)
    (oC : CleanOracle) (oM : MapOracle) :
    ((cleanRun rowsC oC).checkpoints.length = (batchSlices rowsC).length ∧
     ∀ k, k < (cleanRun rowsC oC).checkpoints.length →
       (cleanRun rowsC oC).checkpoints.getD k []
         = ((List.range (k + 1)).map (cleanOutputAt rowsC oC)).flatten) ∧
    ((mapRun rowsM oM).checkpoints.length = (batchSlices rowsM).length ∧
     ∀ k, k < (mapRun rowsM oM).checkpoints.length →
       (mapRun rowsM oM).checkpoints.getD k []
         = ((List.range (k + 1)).map (mapOutputAt rowsM oM)).flatten) := by
  constructor
  · by_cases hn : rowsC = []
    · subst hn
      refine ⟨rfl, ?_⟩
      intro k hk
      simp [cleanRun, CleanState.start] at hk
    · rw [cleanRun_eq rowsC oC hn]
      have hn' : rowsC.length ≠ 0 := by simpa using hn
      have hck := (cleanRunTo_lengths rowsC oC (total_batches rowsC.length)).1
      refine ⟨?_, ?_⟩
      · rw [hck]
        unfold batchSlices
        rw [if_neg hn', List.length_map, List.length_range]
      · intro k hk
        rw [hck] at hk
        rw [cleanRunTo_checkpoints rowsC oC _ k hk,
          cleanRunTo_outputs_take rowsC oC _ (k + 1) (by omega)]
  · by_cases hn : rowsM = []
    · subst hn
      refine ⟨rfl, ?_⟩
      intro k hk
      simp [mapRun, MapState.start] at hk
    · rw [mapRun_eq rowsM oM hn]
      have hn' : rowsM.length ≠ 0 := by simpa using hn
      have hck := (mapRunTo_lengths rowsM oM (total_batches rowsM.length)).1
      refine ⟨?_, ?_⟩
      · rw [hck]
        unfold batchSlices
        rw [if_neg hn', List.length_map, List.length_range]
      · intro k hk
        rw [hck] at hk
        rw [mapRunTo_checkpoints rowsM oM _ k hk,
          mapRunTo_outputs_take rowsM oM _ (k + 1) (by omega)]

theorem wrows2_length : wrows2.length = 101 := by
  unfold wrows2
  exact List.length_replicate ..

theorem batchSlices_wrows2_length : (batchSlices wrows2).length = 2 := by
  unfold batchSlices
  rw [wrows2_length]
  rw [if_neg (by decide), List.length_map, List.length_range]
  decide

/-- Witness for C2 on a concrete two-batch run (batch 0 succeeds, batch 1
fails): the second checkpoint is the concatenation of both batches' blocks,
and the first checkpoint of the mapping run is its batch-0 block. -/
theorem C2_witness :
    1 < (cleanRun wrows2 wOracleC).checkpoints.length ∧
    (cleanRun wrows2 wOracleC).checkpoints.getD 1 []
      = ((List.range 2).map (cleanOutputAt wrows2 wOracleC)).flatten ∧
    0 < (mapRun wrows2 wOracleM).checkpoints.length ∧
    (mapRun wrows2 wOracleM).checkpoints.getD 0 []
      = ((List.range 1).map (mapOutputAt wrows2 wOracleM)).flatten := by
  have h := C2_checkpoint_accumulation wrows2 wrows2 wOracleC wOracleM
  have hlenC : (cleanRun wrows2 wOracleC).checkpoints.length = 2 := by
    rw [h.1.1]; exact batchSlices_wrows2_length
  have hlenM : (mapRun wrows2 wOracleM).checkpoints.length = 2 := by
    rw [h.2.1]; exact batchSlices_wrows2_length
  have hltC : 1 < (cleanRun wrows2 wOracleC).checkpoints.length := by
    rw [hlenC]; decide
  have hltM : 0 < (mapRun wrows2 wOracleM).checkpoints.length := by
    rw [hlenM]; decide
  exact ⟨hltC, h.1.2 1 hltC, hltM, h.2.2 0 hltM⟩

theorem isPrefixOf_self (l : List Char) : l.isPrefixOf l = true := by
  induction l with
  | nil => rfl
  | cons c r ih => simp [List.isPrefixOf, ih]

theorem isSubChars_append_self (pre sub : List Char) :
    isSubChars sub (pre ++ sub) = true := by
  induction pre with
  | nil =>
    cases sub with
    | nil => rfl
    | cons c r =>
      simp only [List.nil_append, isSubChars, Bool.or_eq_true]
      exact Or.inl (isPrefixOf_self (c :: r))
  | cons p ps ih =>
    simp only [List.cons_append, isSubChars, Bool.or_eq_true]
    exact Or.inr ih

theorem containsSub_append_self (a e : String) :
    containsSub (a ++ e) e = true := by
  unfold containsSub
  rw [show (a ++ e).toList = a.toList ++ e.toList from rfl]
  exact isSubChars_append_self a.toList e.toList

theorem classifyDegrade_get (e : String) (row : Row) :
    (classifyDegrade e row).get "classification" = some (.str "UNSURE") ∧
    (classifyDegrade e row).get "confidence" = some (.num 0) ∧
    (classifyDegrade e row).get "reason"
      = some (.str ("Batch failed: " ++ e)) := by
  refine ⟨?_, ?_, ?_⟩ <;> simp [classifyDegrade, Row.get_set]

theorem mapDegrade_get (e : String) (row : Row) :
    (mapDegrade e row).get "mapped_url" = some (.str "") ∧
    (mapDegrade e row).get "confidence" = some (.num 0) ∧
    (mapDegrade e row).get "search_intent" = some (.str "") ∧
    (mapDegrade e row).get "recommendation" = some (.str "Error") ∧
    (mapDegrade e row).get "notes" = some (.str ("Batch failed: " ++ e)) := by
  refine ⟨?_, ?_, ?_, ?_, ?_⟩ <;> simp [mapDegrade, Row.get_set]

/-- **C3.** When a batch's classify (resp. map) call raises — retries
exhausted or parsing failed, i.e. the oracle yields an error — every row of
that batch appears in that batch's output block degraded to
classification="UNSURE"/confidence=0/reason="Batch failed: <e>" (resp.
mapped_url=""/confidence=0/recommendation="Error"), the reason/notes text
contains the error text, and the loop still runs every one of the
`total_batches` batches instead of aborting. -/
theorem C3_failed_batch (rowsC rowsM : List Row) (oC : CleanOracle)
    (oM : MapOracle) (k kM : ℕ) (e eM : String)
    (hnC : rowsC ≠ []) (hkC : k < total_batches rowsC.length)
    (hfC : oC k (examplesArg (cleanRunTo rowsC oC k)) = .error e)
    (hnM : rowsM ≠ []) (hkM : kM < total_batches rowsM.length)
    (hfM : oM kM = .error eM) :
    ((cleanRun rowsC oC).outputs.getD k []
        = (batchAt rowsC k).map (classifyDegrade e) ∧
     ((cleanRun rowsC oC).outputs.getD k []).length = (batchAt rowsC k).length ∧
     (∀ r ∈ (cleanRun rowsC oC).outputs.getD k [],
        r.get "classification" = some (.str "UNSURE") ∧
        r.get "confidence" = some (.num 0) ∧
        r.get "reason" = some (.str ("Batch failed: " ++ e))) ∧
     containsSub ("Batch failed: " ++ e) e = true ∧
     (cleanRun rowsC oC).outputs.length = total_batches rowsC.length) ∧
    ((mapRun rowsM oM).outputs.getD kM []
        = (batchAt rowsM kM).map (mapDegrade eM) ∧
     ((mapRun rowsM oM).outputs.getD kM []).length = (batchAt rowsM kM).length ∧
     (∀ r ∈ (mapRun rowsM oM).outputs.getD kM [],
        r.get "mapped_url" = some (.str "") ∧
        r.get "confidence" = some (.num 0) ∧
        r.get "recommendation" = some (.str "Error") ∧
        r.get "notes" = some (.str ("Batch failed: " ++ eM))) ∧
     containsSub ("Batch failed: " ++ eM) eM = true ∧
     (mapRun rowsM oM).outputs.length = total_batches rowsM.length) := by
  constructor
  · have hout : (cleanRun rowsC oC).outputs.getD k []
        = (batchAt rowsC k).map (classifyDegrade e) := by
      rw [cleanRun_eq rowsC oC hnC,
        cleanRunTo_outputs_getD rowsC oC _ k hkC]
      unfold cleanOutputAt
      rw [hfC]
    refine ⟨hout, by rw [hout, List.length_map], ?_,
      containsSub_append_self _ _, ?_⟩
    · intro r hr
      rw [hout] at hr
      obtain ⟨row, _, hrow⟩ := List.mem_map.mp hr
      subst hrow
      exact classifyDegrade_get e row
    · rw [cleanRun_eq rowsC oC hnC]
      exact (cleanRunTo_lengths rowsC oC _).2.1
  · have hout : (mapRun rowsM oM).outputs.getD kM []
        = (batchAt rowsM kM).map (mapDegrade eM) := by
      rw [mapRun_eq rowsM oM hnM,
        mapRunTo_outputs_getD rowsM oM _ kM hkM]
      unfold mapOutputAt
      rw [hfM]
    refine ⟨hout, by rw [hout, List.length_map], ?_,
      containsSub_append_self _ _, ?_⟩
    · intro r hr
      rw [hout] at hr
      obtain ⟨row, _, hrow⟩ := List.mem_map.mp hr
      subst hrow
      have h := mapDegrade_get eM row
      exact ⟨h.1, h.2.1, h.2.2.2.1, h.2.2.2.2⟩
    · rw [mapRun_eq rowsM oM hnM]
      exact (mapRunTo_lengths rowsM oM _).2

/-- Witness for C3: in the concrete two-batch runs whose second batch raises
"boom", batch 1's output block is the whole batch degraded, and both loops
still produce an output block for every batch. -/
theorem C3_witness :
    (cleanRun wrows2 wOracleC).outputs.length = total_batches wrows2.length ∧
    ((cleanRun wrows2 wOracleC).outputs.getD 1 []).length
      = (batchAt wrows2 1).length ∧
    (mapRun wrows2 wOracleM).outputs.getD 1 []
      = (batchAt wrows2 1).map (mapDegrade "boom") := by
  have hn : wrows2 ≠ [] := by
    intro habs
    have := congrArg List.length habs
    rw [wrows2_length] at this
    simp at this
  have hk : 1 < total_batches wrows2.length := by
    rw [wrows2_length]; decide
  have h := C3_failed_batch wrows2 wrows2 wOracleC wOracleM 1 1 "boom" "boom"
    hn hk rfl hn hk rfl
  exact ⟨h.1.2.2.2.2, h.1.2.1, h.2.1⟩

theorem mergeBatch_length (f : Row → Row → Row) (rows : List Row) (start : ℕ)
    (res : List Row) :
    (mergeBatch f rows start res).length
      = min res.length (rows.length - start) := by
  simp [mergeBatch, List.length_zip]

theorem mergeBatch_getD (f : Row → Row → Row) (rows : List Row) (start : ℕ)
    (res : List Row) (i : ℕ)
    (hi : i < (mergeBatch f rows start res).length) :
    (mergeBatch f rows start res).getD i []
      = f (rows.getD (start + i) []) (res.getD i []) := by
  have hlen := mergeBatch_length f rows start res
  rw [hlen] at hi
  have hir : i < res.length := by omega
  have hrow : start + i < rows.length := by omega
  have hid : i < (rows.drop start).length := by
    rw [List.length_drop]; omega
  have hiz : i < (res.zip (rows.drop start)).length := by
    rw [List.length_zip]; omega
  have him : i < ((res.zip (rows.drop start)).map
      (fun p => f p.2 p.1)).length := by
    rw [List.length_map]; omega
  unfold mergeBatch
  rw [List.getD_eq_getElem _ [] him, List.getElem_map, List.getElem_zip,
    List.getElem_drop]
  rw [List.getD_eq_getElem _ [] hrow, List.getD_eq_getElem _ [] hir]

theorem classifyAnnotate_get (row res : Row) :
    (classifyAnnotate row res).get "classification"
        = some (res.getD "classification" (.str "UNSURE")) ∧
    (classifyAnnotate row res).get "confidence"
        = some (res.getD "confidence" (.num 50)) ∧
    (classifyAnnotate row res).get "reason"
        = some (res.getD "reason" (.str "")) ∧
    ∀ key, key ∉ negAnnKeys →
      (classifyAnnotate row res).get key = row.get key := by
  refine ⟨?_, ?_, ?_, ?_⟩ <;> simp [classifyAnnotate, Row.get_set, negAnnKeys]
  intro key h1 h2 h3
  simp [h1, h2, h3]

theorem mapAnnotate_get (row res : Row) :
    (mapAnnotate row res).get "mapped_url"
        = some (res.getD "url" (.str "")) ∧
    (mapAnnotate row res).get "confidence"
        = some (res.getD "confidence" (.num 0)) ∧
    (mapAnnotate row res).get "search_intent"
        = some (res.getD "intent" (.str "")) ∧
    (mapAnnotate row res).get "recommendation"
        = some (.str (recommendationOf res)) ∧
    (mapAnnotate row res).get "notes"
        = some (res.getD "notes" (.str "")) ∧
    ∀ key, key ∉ mapAnnKeys →
      (mapAnnotate row res).get key = row.get key := by
  refine ⟨?_, ?_, ?_, ?_, ?_, ?_⟩ <;>
    simp [mapAnnotate, Row.get_set, mapAnnKeys]
  intro key h1 h2 h3 h4 h5
  simp [h1, h2, h3, h4, h5]

/-- **C6.** For a successfully processed batch, the i-th model result is
merged onto original row `start + i` — by position, not by keyword text —
and the merged row keeps every original column outside the annotation keys
(in particular the keyword text) unchanged, with only the annotation fields
set from the result (with the code's defaults). -/
theorem C6_positional_merge (rowsC rowsM : List Row) (oC : CleanOracle)
    (oM : MapOracle) (k kM : ℕ) (res resM : List Row)
    (hnC : rowsC ≠ []) (hkC : k < total_batches rowsC.length)
    (hsC : oC k (examplesArg (cleanRunTo rowsC oC k)) = .ok res)
    (hnM : rowsM ≠ []) (hkM : kM < total_batches rowsM.length)
    (hsM : oM kM = .ok resM) :
    ((cleanRun rowsC oC).outputs.getD k []
        = mergeBatch classifyAnnotate rowsC (k * BATCH_SIZE) res ∧
     (∀ i, i < ((cleanRun rowsC oC).outputs.getD k []).length →
       ((cleanRun rowsC oC).outputs.getD k []).getD i []
           = classifyAnnotate (rowsC.getD (k * BATCH_SIZE + i) [])
               (res.getD i []) ∧
       (∀ key, key ∉ negAnnKeys →
         (((cleanRun rowsC oC).outputs.getD k []).getD i []).get key
           = (rowsC.getD (k * BATCH_SIZE + i) []).get key) ∧
       (((cleanRun rowsC oC).outputs.getD k []).getD i []).get "keyword"
           = (rowsC.getD (k * BATCH_SIZE + i) []).get "keyword" ∧
       (((cleanRun rowsC oC).outputs.getD k []).getD i []).get "classification"
           = some ((res.getD i []).getD "classification" (.str "UNSURE")) ∧
       (((cleanRun rowsC oC).outputs.getD k []).getD i []).get "confidence"
           = some ((res.getD i []).getD "confidence" (.num 50)) ∧
       (((cleanRun rowsC oC).outputs.getD k []).getD i []).get "reason"
           = some ((res.getD i []).getD "reason" (.str "")))) ∧
    ((mapRun rowsM oM).outputs.getD kM []
        = mergeBatch mapAnnotate rowsM (kM * BATCH_SIZE) resM ∧
     (∀ i, i < ((mapRun rowsM oM).outputs.getD kM []).length →
       ((mapRun rowsM oM).outputs.getD kM []).getD i []
           = mapAnnotate (rowsM.getD (kM * BATCH_SIZE + i) [])
               (resM.getD i []) ∧
       (∀ key, key ∉ mapAnnKeys →
         (((mapRun rowsM oM).outputs.getD kM []).getD i []).get key
           = (rowsM.getD (kM * BATCH_SIZE + i) []).get key) ∧
       (((mapRun rowsM oM).outputs.getD kM []).getD i []).get "keyword"
           = (rowsM.getD (kM * BATCH_SIZE + i) []).get "keyword" ∧
       (((mapRun rowsM oM).outputs.getD kM []).getD i []).get "mapped_url"
           = some ((resM.getD i []).getD "url" (.str "")) ∧
       (((mapRun rowsM oM).outputs.getD kM []).getD i []).get "recommendation"
           = some (.str (recommendationOf (resM.getD i []))) ∧
       (((mapRun rowsM oM).outputs.getD kM []).getD i []).get "notes"
           = some ((resM.getD i []).getD "notes" (.str "")))) := by
  constructor
  · have hout : (cleanRun rowsC oC).outputs.getD k []
        = mergeBatch classifyAnnotate rowsC (k * BATCH_SIZE) res := by
      rw [cleanRun_eq rowsC oC hnC,
        cleanRunTo_outputs_getD rowsC oC _ k hkC]
      unfold cleanOutputAt
      rw [hsC]
    refine ⟨hout, ?_⟩
    intro i hi
    rw [hout] at hi ⊢
    rw [mergeBatch_getD classifyAnnotate rowsC (k * BATCH_SIZE) res i hi]
    have hc := classifyAnnotate_get (rowsC.getD (k * BATCH_SIZE + i) [])
      (res.getD i [])
    have hkw : "keyword" ∉ negAnnKeys := by decide
    exact ⟨rfl, hc.2.2.2, hc.2.2.2 "keyword" hkw, hc.1, hc.2.1, hc.2.2.1⟩
  · have hout : (mapRun rowsM oM).outputs.getD kM []
        = mergeBatch mapAnnotate rowsM (kM * BATCH_SIZE) resM := by
      rw [mapRun_eq rowsM oM hnM,
        mapRunTo_outputs_getD rowsM oM _ kM hkM]
      unfold mapOutputAt
      rw [hsM]
    refine ⟨hout, ?_⟩
    intro i hi
    rw [hout] at hi ⊢
    rw [mergeBatch_getD mapAnnotate rowsM (kM * BATCH_SIZE) resM i hi]
    have hm := mapAnnotate_get (rowsM.getD (kM * BATCH_SIZE + i) [])
      (resM.getD i [])
    have hkw : "keyword" ∉ mapAnnKeys := by decide
    exact ⟨rfl, hm.2.2.2.2.2, hm.2.2.2.2.2 "keyword" hkw, hm.1,
      hm.2.2.2.1, hm.2.2.2.2.1⟩

/-- Witness for C6: in the concrete runs, batch 0 succeeds with one result;
its single merged row keeps the original keyword and takes the result's
classification (resp. mapped_url). -/
theorem C6_witness :
    (((cleanRun wrows2 wOracleC).outputs.getD 0 []).getD 0 []).get "keyword"
        = (wrows2.getD 0 []).get "keyword" ∧
    (((cleanRun wrows2 wOracleC).outputs.getD 0 []).getD 0 []).get
        "classification" = some ((wresK.getD "classification" (.str "UNSURE"))) ∧
    (((mapRun wrows2 wOracleM).outputs.getD 0 []).getD 0 []).get "mapped_url"
        = some ((wresM.getD "url" (.str ""))) := by
  have hn : wrows2 ≠ [] := by
    intro habs
    have := congrArg List.length habs
    rw [wrows2_length] at this
    simp at this
  have hk : 0 < total_batches wrows2.length := by
    rw [wrows2_length]; decide
  have h := C6_positional_merge wrows2 wrows2 wOracleC wOracleM 0 0
    [wresK] [wresM] hn hk rfl hn hk rfl
  have hlenC : ((cleanRun wrows2 wOracleC).outputs.getD 0 []).length = 1 := by
    rw [h.1.1, mergeBatch_length, wrows2_length]
    decide
  have hlenM : ((mapRun wrows2 wOracleM).outputs.getD 0 []).length = 1 := by
    rw [h.2.1, mergeBatch_length, wrows2_length]
    decide
  have hiC : 0 < ((cleanRun wrows2 wOracleC).outputs.getD 0 []).length := by
    rw [hlenC]; decide
  have hiM : 0 < ((mapRun wrows2 wOracleM).outputs.getD 0 []).length := by
    rw [hlenM]; decide
  have hC := h.1.2 0 hiC
  have hM := h.2.2 0 hiM
  refine ⟨hC.2.2.1, ?_, ?_⟩
  · have := hC.2.2.2.1
    simpa using this
  · have := hM.2.2.2.1
    simpa using this

theorem anchorStep_append (acc ex : List Row) :
    ∃ t, anchorStep acc ex = acc ++ t := by
  cases ex with
  | nil => exact ⟨[], by simp [anchorStep]⟩
  | cons e tl =>
    by_cases h : acc.length < 3
    · exact ⟨[e], by simp [anchorStep, h]⟩
    · exact ⟨[], by simp [anchorStep, h]⟩

theorem anchorStep_le3 (acc ex : List Row) (h : acc.length ≤ 3) :
    (anchorStep acc ex).length ≤ 3 := by
  cases ex with
  | nil => simpa [anchorStep] using h
  | cons e tl =>
    by_cases hlt : acc.length < 3
    · simp [anchorStep, hlt]
      omega
    · simpa [anchorStep, hlt] using h

theorem updateAnchors_append (anchors res : List Row) :
    ∃ t, updateAnchors anchors res = anchors ++ t := by
  unfold updateAnchors
  simp only [List.foldl_cons, List.foldl_nil]
  obtain ⟨t1, h1⟩ := anchorStep_append anchors
    (res.filter (fun r => r.get "classification" == some (.str "KEEP")))
  rw [h1]
  obtain ⟨t2, h2⟩ := anchorStep_append (anchors ++ t1)
    (res.filter (fun r => r.get "classification" == some (.str "REMOVE")))
  rw [h2]
  obtain ⟨t3, h3⟩ := anchorStep_append ((anchors ++ t1) ++ t2)
    (res.filter (fun r => r.get "classification" == some (.str "UNSURE")))
  rw [h3]
  exact ⟨t1 ++ t2 ++ t3, by simp⟩

theorem updateAnchors_le3 (anchors res : List Row) (h : anchors.length ≤ 3) :
    (updateAnchors anchors res).length ≤ 3 := by
  unfold updateAnchors
  simp only [List.foldl_cons, List.foldl_nil]
  exact anchorStep_le3 _ _ (anchorStep_le3 _ _ (anchorStep_le3 _ _ h))

theorem cleanRunTo_anchors_le3 (rows : List Row) (oracle : CleanOracle)
    (k : ℕ) : (cleanRunTo rows oracle k).anchor_examples.length ≤ 3 := by
  induction k with
  | zero => simp [cleanRunTo, CleanState.start]
  | succ k ih =>
    rw [cleanRunTo_succ]
    unfold cleanStep
    cases ho : oracle k (examplesArg (cleanRunTo rows oracle k)) with
    | ok res =>
      simp only [ho]
      exact updateAnchors_le3 _ _ ih
    | error e =>
      simp only [ho]
      exact ih

theorem cleanRunTo_anchors_mono (rows : List Row) (oracle : CleanOracle)
    (k : ℕ) :
    ∃ t, (cleanRunTo rows oracle (k + 1)).anchor_examples
      = (cleanRunTo rows oracle k).anchor_examples ++ t := by
  rw [cleanRunTo_succ]
  unfold cleanStep
  cases ho : oracle k (examplesArg (cleanRunTo rows oracle k)) with
  | ok res =>
    simp only [ho]
    exact updateAnchors_append _ _
  | error e =>
    simp only [ho]
    exact ⟨[], by simp⟩

theorem cleanRunTo_calls_getD (rows : List Row) (oracle : CleanOracle)
    (m i : ℕ) (hi : i < m) :
    (cleanRunTo rows oracle m).calls.getD i none
      = examplesArg (cleanRunTo rows oracle i) := by
  induction m with
  | zero => omega
  | succ m ih =>
    have hcm : (cleanRunTo rows oracle m).calls.length = m :=
      (cleanRunTo_lengths rows oracle m).2.2
    rw [cleanRunTo_succ]
    rcases Nat.lt_succ_iff_lt_or_eq.mp hi with h | h
    · unfold cleanStep
      cases ho : oracle m (examplesArg (cleanRunTo rows oracle m)) <;>
        simp only [ho] <;>
        rw [List.getD_eq_getElem?_getD, List.getElem?_append_left (by omega),
          ← List.getD_eq_getElem?_getD, ih h]
    · subst h
      unfold cleanStep
      cases ho : oracle i (examplesArg (cleanRunTo rows oracle i)) with
      | ok res =>
        simp only [ho]
        have hidx := List.getElem?_concat_length
          ((cleanRunTo rows oracle i).calls)
          (examplesArg (cleanRunTo rows oracle i))
        rw [hcm] at hidx
        rw [List.getD_eq_getElem?_getD, hidx]
        rfl
      | error e =>
        simp only [ho]
        have hidx := List.getElem?_concat_length
          ((cleanRunTo rows oracle i).calls)
          (examplesArg (cleanRunTo rows oracle i))
        rw [hcm] at hidx
        rw [List.getD_eq_getElem?_getD, hidx]
        rfl

/-- **C8 counterexample.** The anchor cache does not hold at most one example
per category: the code appends `examples_of_cat[0]` whenever the category's
list is non-empty and the cache holds fewer than 3 entries, without checking
whether the category is already cached.  With two batches each returning one
KEEP result, the cache ends with two KEEP entries. -/
theorem C8_counterexample :
    (cleanRun wrows2 wOracleKK).anchor_examples = [wresK, wresK] ∧
    ((cleanRun wrows2 wOracleKK).anchor_examples.filter
        (fun r => r.get "classification" == some (Value.str "KEEP"))).length
      = 2 := by
  constructor <;> rfl

/-- **C8 (amended).** Within a run, the anchor-example set starts empty, only
grows (each batch appends zero or more entries at the end, never removing or
replacing), never exceeds 3 entries, and the cached set accumulated before
batch k is exactly the `examples=` argument passed to batch k's
`classify_keywords` call (`None` when empty).  The per-category uniqueness
stated in the claim does not hold: a category that is already cached can be
cached again by a later batch (see the counterexample). -/
theorem C8_anchor_invariants (rows : List Row) (oracle : CleanOracle) :
    (cleanRunTo rows oracle 0).anchor_examples = [] ∧
    (∀ k, ∃ t, (cleanRunTo rows oracle (k + 1)).anchor_examples
        = (cleanRunTo rows oracle k).anchor_examples ++ t) ∧
    (∀ k, (cleanRunTo rows oracle k).anchor_examples.length ≤ 3) ∧
    (∀ i m, i < m → (cleanRunTo rows oracle m).calls.getD i none
        = examplesArg (cleanRunTo rows oracle i)) := by
  exact ⟨rfl, cleanRunTo_anchors_mono rows oracle,
    cleanRunTo_anchors_le3 rows oracle,
    fun i m him => cleanRunTo_calls_getD rows oracle m i him⟩

/-- Witness for C8: in the two-batch KEEP run, batch 1's call receives the
anchor cached after batch 0. -/
theorem C8_witness :
    (cleanRunTo wrows2 wOracleKK 2).calls.getD 1 none
      = examplesArg (cleanRunTo wrows2 wOracleKK 1) ∧
    examplesArg (cleanRunTo wrows2 wOracleKK 1) = some [wresK] := by
  refine ⟨(C8_anchor_invariants wrows2 wOracleKK).2.2.2 1 2 (by decide), ?_⟩
  rfl

theorem isSubChars_of_prefix (sub cs : List Char)
    (h : sub.isPrefixOf cs = true) : isSubChars sub cs = true := by
  cases cs with
  | nil =>
    cases sub with
    | nil => rfl
    | cons a l => simp [List.isPrefixOf] at h
  | cons c rest =>
    simp only [isSubChars, Bool.or_eq_true]
    exact Or.inl h

theorem getLast?_dropWhile (p : Char → Bool) (l : List Char) (c : Char)
    (hc : p c = false) :
    (List.dropWhile p (l ++ [c])).getLast? = some c := by
  induction l with
  | nil =>
    simp only [List.nil_append, List.dropWhile_cons, hc]
    rfl
  | cons a l ih =>
    simp only [List.cons_append, List.dropWhile_cons]
    cases hpa : p a with
    | true => simpa [hpa] using ih
    | false =>
      simp only [hpa, Bool.false_eq_true, if_false]
      have h3 : a :: (l ++ [c]) = (a :: l) ++ [c] := rfl
      rw [h3, List.getLast?_concat]

theorem pyStripChars_eq_self (cs : List Char)
    (hh : ∀ c, cs.head? = some c → pyIsSpace c = false)
    (hl : ∀ c, cs.getLast? = some c → pyIsSpace c = false) :
    pyStripChars cs = cs := by
  unfold pyStripChars
  have h1 : List.dropWhile pyIsSpace cs = cs := by
    cases cs with
    | nil => rfl
    | cons c l =>
      rw [List.dropWhile_cons, hh c rfl]
      simp
  rw [h1]
  have h2 : List.dropWhile pyIsSpace cs.reverse = cs.reverse := by
    cases hc : cs.reverse with
    | nil => rfl
    | cons c l =>
      have hlast : cs.getLast? = some c := by
        rw [← List.head?_reverse, hc]
        rfl
      rw [List.dropWhile_cons, hl c hlast]
      simp
  rw [h2, List.reverse_reverse]

theorem pyStripChars_head (c : Char) (cs : List Char)
    (hc : pyIsSpace c = false) :
    (pyStripChars (c :: cs)).head? = some c := by
  unfold pyStripChars
  have h1 : List.dropWhile pyIsSpace (c :: cs) = c :: cs := by
    rw [List.dropWhile_cons, hc]
    simp
  rw [h1]
  rw [List.head?_reverse]
  rw [show (c :: cs).reverse = cs.reverse ++ [c] from by simp]
  exact getLast?_dropWhile pyIsSpace cs.reverse c hc

theorem findClose_append (body : List Char)
    (h : isSubChars nlTicks body = false) :
    findClose (body ++ nlTicks) = some body := by
  induction body with
  | nil => rfl
  | cons c rest ih =>
    have h2 : nlTicks.isPrefixOf (c :: rest) = false ∧
        isSubChars nlTicks rest = false := by
      simp only [isSubChars, Bool.or_eq_false_iff] at h
      exact h
    have hpre : nlTicks.isPrefixOf (c :: (rest ++ nlTicks)) = false := by
      cases rest with
      | nil => simp [nlTicks, List.isPrefixOf]
      | cons a rest2 =>
        cases rest2 with
        | nil => simp [nlTicks, List.isPrefixOf]
        | cons b rest3 =>
          cases rest3 with
          | nil => simp [nlTicks, List.isPrefixOf]
          | cons d tl =>
            have hsame : nlTicks.isPrefixOf
                (c :: ((a :: b :: d :: tl) ++ nlTicks))
                = nlTicks.isPrefixOf (c :: a :: b :: d :: tl) := by
              simp [nlTicks, List.isPrefixOf]
            rw [hsame]
            exact h2.1
    rw [List.cons_append]
    unfold findClose
    rw [hpre]
    simp only [Bool.false_eq_true, if_false]
    rw [ih h2.2]

theorem pyFind_append (p b : List Char) (ch : Char)
    (hp : ∀ x ∈ p, x ≠ ch) :
    pyFind (p ++ b) ch = (pyFind b ch).map (· + p.length) := by
  induction p with
  | nil => simp [pyFind]
  | cons a p' ih =>
    have ha : a ≠ ch := hp a (by simp)
    have hp' : ∀ x ∈ p', x ≠ ch := fun x hx => hp x (by simp [hx])
    unfold pyFind at *
    rw [List.cons_append, List.findIdx?_cons]
    simp only [ha, decide_eq_true_eq, Bool.false_eq_true, if_false,
      decide_False]
    rw [List.findIdx?_succ, ih hp']
    cases hfb : List.findIdx? (fun x => decide (x = ch)) b with
    | none => rfl
    | some k =>
      show some (k + p'.length + 1) = some (k + (a :: p').length)
      rw [List.length_cons, Nat.add_assoc]

theorem matchWsNl_fence (body : List Char) (c : Char)
    (hhead : body.head? = some c) (hc : pyIsSpace c = false)
    (hno : isSubChars nlTicks body = false) :
    matchWsNl ('\n' :: (body ++ nlTicks)) = some body := by
  obtain ⟨tl, rfl⟩ : ∃ tl, body = c :: tl := by
    cases body with
    | nil => simp at hhead
    | cons x tl =>
      simp only [List.head?_cons, Option.some_inj] at hhead
      exact ⟨tl, by rw [hhead]⟩
  have hrun : List.takeWhile pyIsSpace ('\n' :: ((c :: tl) ++ nlTicks))
      = ['\n'] := by
    rw [List.takeWhile_cons]
    simp only [show pyIsSpace '\n' = true from rfl, if_true, List.cons_append,
      List.takeWhile_cons, hc]
    simp
  have hrest : List.dropWhile pyIsSpace ('\n' :: ((c :: tl) ++ nlTicks))
      = (c :: tl) ++ nlTicks := by
    rw [List.dropWhile_cons]
    simp only [show pyIsSpace '\n' = true from rfl, if_true, List.cons_append,
      List.dropWhile_cons, hc]
    simp
  unfold matchWsNl nlCandidates
  rw [hrun, hrest]
  have hcand : ((List.range (['\n'] : List Char).length).filterMap (fun i =>
      if (['\n'] : List Char).getD i ' ' = '\n' then
        some ((['\n'] : List Char).drop (i + 1) ++ ((c :: tl) ++ nlTicks))
      else none)).reverse = [(c :: tl) ++ nlTicks] := by
    simp [show List.range 1 = [0] from rfl, List.filterMap_cons]
  rw [hcand]
  have h5 : findClose ((c :: tl) ++ nlTicks) = some (c :: tl) :=
    findClose_append (c :: tl) hno
  rw [List.findSome?_cons, h5]

theorem matchWsNl_nonspace (c : Char) (cs : List Char)
    (hc : pyIsSpace c = false) : matchWsNl (c :: cs) = none := by
  unfold matchWsNl nlCandidates
  have h1 : List.takeWhile pyIsSpace (c :: cs) = [] := by
    rw [List.takeWhile_cons, hc]
    simp
  rw [h1]
  simp

theorem matchAfterTicks_json (X : List Char) :
    matchAfterTicks ('j' :: 's' :: 'o' :: 'n' :: '\n' :: X)
      = matchWsNl ('\n' :: X) := by
  unfold matchAfterTicks
  have hpre : "json".toList.isPrefixOf
      ('j' :: 's' :: 'o' :: 'n' :: '\n' :: X) = true := by
    simp [List.isPrefixOf]
  rw [hpre]
  simp only [if_true]
  have hdrop : ('j' :: 's' :: 'o' :: 'n' :: '\n' :: X).drop 4 = '\n' :: X := rfl
  rw [hdrop]
  cases h : matchWsNl ('\n' :: X) with
  | some g => rfl
  | none =>
    show matchWsNl ('j' :: 's' :: 'o' :: 'n' :: '\n' :: X) = none
    exact matchWsNl_nonspace 'j' _ (by decide)

theorem matchAfterTicks_plain (X : List Char) :
    matchAfterTicks ('\n' :: X) = matchWsNl ('\n' :: X) := by
  unfold matchAfterTicks
  have hpre : "json".toList.isPrefixOf ('\n' :: X) = false := by
    simp [List.isPrefixOf]
  rw [hpre]
  rfl

theorem fenceSearch_ticks (cs : List Char) (g : List Char)
    (h : matchAfterTicks cs = some g) :
    fenceSearch ('`' :: '`' :: '`' :: cs) = some g := by
  unfold fenceSearch
  have hpre : ticks3.isPrefixOf ('`' :: '`' :: '`' :: cs) = true := by
    simp [ticks3, List.isPrefixOf]
  rw [hpre]
  simp only [if_true]
  have hdrop : ('`' :: '`' :: cs).drop 2 = cs := rfl
  rw [hdrop, h]

/-- **C7 counterexample.** `json.loads` rejects trailing data, so shape (3)
"JSON *followed* by extraneous prose" is NOT recovered: the text starts with
`{`, no trimming happens, and the parse raises — while the JSON prefix alone
is perfectly parseable. -/
theorem C7_counterexample :
    jsonLoads "\x7b\"a\": 1\x7d" = some (Json.obj [("a", Json.num "1")]) ∧
    parse_json "\x7b\"a\": 1\x7d Hope this helps!" = none := by
  constructor <;> rfl

/-- **C7 (amended).** `_parse_json` returns the decoded JSON value for
(1) raw JSON documents starting with a structural bracket (possibly
whitespace-padded, no fence marker present), (2) JSON wrapped in a
newline-delimited fenced code block (```` ```json ```` or plain ```` ``` ````,
no stray `"\n```"` inside the body), and (3) JSON *preceded* by extraneous
prose, recovered by locating the first structural bracket and parsing from
there; JSON *followed* by trailing prose is not recovered (see the
counterexample). -/
theorem C7_parse_json_shapes :
    (∀ (s : String) (j : Json),
      isSubChars ticks3 (pyStripChars s.toList) = false →
      ((pyStripChars s.toList).head? = some '{' ∨
        (pyStripChars s.toList).head? = some '[') →
      jsonLoadsChars (pyStripChars s.toList) = some j →
      parse_json s = some j) ∧
    (∀ (body : List Char) (j : Json),
      isSubChars nlTicks body = false →
      (body.head? = some '{' ∨ body.head? = some '[') →
      jsonLoadsChars (pyStripChars body) = some j →
      parse_json (String.mk (fenceOpenJson ++ body ++ nlTicks)) = some j ∧
      parse_json (String.mk (fenceOpen ++ body ++ nlTicks)) = some j) ∧
    (∀ (s : String) (p b : List Char) (j : Json),
      pyStripChars s.toList = p ++ b →
      isSubChars ticks3 (p ++ b) = false →
      (∀ c ∈ p, c ≠ '{' ∧ c ≠ '[') →
      (b.head? = some '{' ∨ b.head? = some '[') →
      jsonLoadsChars b = some j →
      parse_json s = some j) := by
  refine ⟨?_, ?_, ?_⟩
  · -- (1) raw JSON
    intro s j h1 h2 h3
    unfold parse_json
    have hf : fenceStage (pyStripChars s.toList) = pyStripChars s.toList := by
      unfold fenceStage
      rw [h1]
      simp
    have hb : bracketStage (pyStripChars s.toList) = pyStripChars s.toList := by
      unfold bracketStage
      rw [if_pos h2]
    rw [hf, hb, h3]
  · -- (2) fenced code block
    intro body j hno hhead hj
    obtain ⟨c, hceq, hcsp⟩ : ∃ c, body.head? = some c ∧ pyIsSpace c = false := by
      rcases hhead with h | h
      · exact ⟨'{', h, by decide⟩
      · exact ⟨'[', h, by decide⟩
    obtain ⟨tl, rfl⟩ : ∃ tl, body = c :: tl := by
      cases body with
      | nil => simp at hceq
      | cons x tl =>
        simp only [List.head?_cons, Option.some_inj] at hceq
        exact ⟨tl, by rw [hceq]⟩
    have hhead2 : (pyStripChars (c :: tl)).head? = some c :=
      pyStripChars_head c tl hcsp
    have hbs : bracketStage (pyStripChars (c :: tl)) = pyStripChars (c :: tl) := by
      unfold bracketStage
      rw [if_pos ?cond]
      case cond =>
        rcases hhead with h | h
        · left
          rw [hhead2]
          simpa using h
        · right
          rw [hhead2]
          simpa using h
    have h8 : matchWsNl ('\n' :: ((c :: tl) ++ nlTicks)) = some (c :: tl) :=
      matchWsNl_fence (c :: tl) c rfl hcsp hno
    constructor
    · -- ```json fence
      have hstrip : pyStripChars (fenceOpenJson ++ (c :: tl) ++ nlTicks)
          = fenceOpenJson ++ (c :: tl) ++ nlTicks := by
        apply pyStripChars_eq_self
        · intro x hx
          have hx' : x = '`' := by
            have := by simpa [fenceOpenJson] using hx
            exact this.symm
          subst hx'
          decide
        · intro x hx
          have hre : fenceOpenJson ++ (c :: tl) ++ nlTicks
              = ((fenceOpenJson ++ (c :: tl)) ++ ['\n', '`', '`']) ++ ['`'] := by
            simp [nlTicks]
          rw [hre, List.getLast?_concat] at hx
          have hx' : x = '`' := by
            have := by simpa using hx
            exact this.symm
          subst hx'
          decide
      have hshape : fenceOpenJson ++ (c :: tl) ++ nlTicks
          = '`' :: '`' :: '`' ::
            ('j' :: 's' :: 'o' :: 'n' :: '\n' :: ((c :: tl) ++ nlTicks)) := by
        simp [fenceOpenJson]
      have hsearch : fenceSearch (fenceOpenJson ++ (c :: tl) ++ nlTicks)
          = some (c :: tl) := by
        rw [hshape]
        apply fenceSearch_ticks
        rw [matchAfterTicks_json, h8]
      have hfs : fenceStage (fenceOpenJson ++ (c :: tl) ++ nlTicks)
          = pyStripChars (c :: tl) := by
        unfold fenceStage
        have hsub : isSubChars ticks3 (fenceOpenJson ++ (c :: tl) ++ nlTicks)
            = true := by
          apply isSubChars_of_prefix
          simp [ticks3, fenceOpenJson, List.isPrefixOf]
        rw [hsub]
        simp only [if_true]
        rw [hsearch]
      unfold parse_json
      rw [show (String.mk (fenceOpenJson ++ (c :: tl) ++ nlTicks)).toList
          = fenceOpenJson ++ (c :: tl) ++ nlTicks from rfl]
      rw [hstrip, hfs, hbs, hj]
    · -- plain ``` fence
      have hstrip : pyStripChars (fenceOpen ++ (c :: tl) ++ nlTicks)
          = fenceOpen ++ (c :: tl) ++ nlTicks := by
        apply pyStripChars_eq_self
        · intro x hx
          have hx' : x = '`' := by
            have := by simpa [fenceOpen] using hx
            exact this.symm
          subst hx'
          decide
        · intro x hx
          have hre : fenceOpen ++ (c :: tl) ++ nlTicks
              = ((fenceOpen ++ (c :: tl)) ++ ['\n', '`', '`']) ++ ['`'] := by
            simp [nlTicks]
          rw [hre, List.getLast?_concat] at hx
          have hx' : x = '`' := by
            have := by simpa using hx
            exact this.symm
          subst hx'
          decide
      have hshape : fenceOpen ++ (c :: tl) ++ nlTicks
          = '`' :: '`' :: '`' :: ('\n' :: ((c :: tl) ++ nlTicks)) := by
        simp [fenceOpen]
      have hsearch : fenceSearch (fenceOpen ++ (c :: tl) ++ nlTicks)
          = some (c :: tl) := by
        rw [hshape]
        apply fenceSearch_ticks
        rw [matchAfterTicks_plain, h8]
      have hfs : fenceStage (fenceOpen ++ (c :: tl) ++ nlTicks)
          = pyStripChars (c :: tl) := by
        unfold fenceStage
        have hsub : isSubChars ticks3 (fenceOpen ++ (c :: tl) ++ nlTicks)
            = true := by
          apply isSubChars_of_prefix
          simp [ticks3, fenceOpen, List.isPrefixOf]
        rw [hsub]
        simp only [if_true]
        rw [hsearch]
      unfold parse_json
      rw [show (String.mk (fenceOpen ++ (c :: tl) ++ nlTicks)).toList
          = fenceOpen ++ (c :: tl) ++ nlTicks from rfl]
      rw [hstrip, hfs, hbs, hj]
  · -- (3) prose before the JSON
    intro s p b j hsplit hfence hp hb hj
    unfold parse_json
    rw [hsplit]
    have hfs : fenceStage (p ++ b) = p ++ b := by
      unfold fenceStage
      rw [hfence]
      simp
    rw [hfs]
    obtain ⟨cb, hcb⟩ : ∃ cb, b.head? = some cb := by
      rcases hb with h | h
      · exact ⟨'{', h⟩
      · exact ⟨'[', h⟩
    cases p with
    | nil =>
      have hbs : bracketStage ([] ++ b) = b := by
        unfold bracketStage
        rw [if_pos (by simpa using hb)]
        simp
      rw [hbs, hj]
    | cons a p' =>
      have ha := hp a (by simp)
      have hcond : ¬ (((a :: p') ++ b).head? = some '{' ∨
          ((a :: p') ++ b).head? = some '[') := by
        intro hor
        rcases hor with h | h <;>
          simp only [List.cons_append, List.head?_cons, Option.some_inj] at h
        · exact ha.1 h
        · exact ha.2 h
      have hfind : ∀ ch : Char, (∀ x ∈ a :: p', x ≠ ch) →
          pyFind ((a :: p') ++ b) ch
            = (pyFind b ch).map (· + (a :: p').length) :=
        fun ch hch => pyFind_append (a :: p') b ch hch
      have hp1 : ∀ x ∈ a :: p', x ≠ '{' := fun x hx => (hp x hx).1
      have hp2 : ∀ x ∈ a :: p', x ≠ '[' := fun x hx => (hp x hx).2
      have hidx : firstBracketIdx ((a :: p') ++ b) = some ((a :: p').length) := by
        unfold firstBracketIdx
        rw [hfind '{' hp1, hfind '[' hp2]
        rcases hb with h | h
        · obtain ⟨tb, rfl⟩ : ∃ tb, b = '{' :: tb := by
            cases b with
            | nil => simp at h
            | cons x tb =>
              simp only [List.head?_cons, Option.some_inj] at h
              exact ⟨tb, by rw [h]⟩
          have hfb : pyFind ('{' :: tb) '{' = some 0 := by
            unfold pyFind
            rw [List.findIdx?_cons]
            rfl
          rw [hfb]
          cases hob : pyFind ('{' :: tb) '[' with
          | none => simp
          | some k =>
            show some (min (0 + (a :: p').length) (k + (a :: p').length))
              = some ((a :: p').length)
            congr 1
            omega
        · obtain ⟨tb, rfl⟩ : ∃ tb, b = '[' :: tb := by
            cases b with
            | nil => simp at h
            | cons x tb =>
              simp only [List.head?_cons, Option.some_inj] at h
              exact ⟨tb, by rw [h]⟩
          have hfb : pyFind ('[' :: tb) '[' = some 0 := by
            unfold pyFind
            rw [List.findIdx?_cons]
            rfl
          rw [hfb]
          cases hob : pyFind ('[' :: tb) '{' with
          | none => simp
          | some k =>
            show some (min (k + (a :: p').length) (0 + (a :: p').length))
              = some ((a :: p').length)
            congr 1
            omega
      have hbs : bracketStage ((a :: p') ++ b) = b := by
        unfold bracketStage
        rw [if_neg hcond, hidx]
        exact List.drop_left (a :: p') b
      rw [hbs, hj]

/-- Witness for C7: concrete prose-prefixed and fenced responses are both
recovered to the same decoded object. -/
theorem C7_witness :
    parse_json "Sure: \x7b\"a\": 1\x7d" = some (Json.obj [("a", Json.num "1")]) ∧
    parse_json (String.mk (fenceOpenJson ++ "\x7b\"a\": 1\x7d".toList ++ nlTicks))
      = some (Json.obj [("a", Json.num "1")]) := by
  have h := C7_parse_json_shapes
  constructor
  · exact h.2.2 "Sure: \x7b\"a\": 1\x7d" "Sure: ".toList "\x7b\"a\": 1\x7d".toList
      (Json.obj [("a", Json.num "1")]) rfl rfl (by decide) (Or.inl rfl) rfl
  · exact (h.2.1 "\x7b\"a\": 1\x7d".toList (Json.obj [("a", Json.num "1")])
      (by decide) (Or.inl rfl) rfl).1

end ZedSeo
